import Mathlib

/-!
# Verification of the Deforum Web Pilot capture/smoothing/export pipeline

Shallow embedding of the trajectory capture, smoothing, playback and
schedule-export logic of the `deforum-web-pilot` repository
(`src/logic/recorder.ts`, `src/logic/export.ts`, `src/logic/playback.ts`),
together with theorems settling the specification's claims.

Modelling conventions:
* JavaScript `number` is modelled by `ℚ`.  All arithmetic appearing in the
  embedded code paths (`+`, `-`, `*`, `/`, comparisons) is exact on the
  inputs considered, so the rational model is faithful there; IEEE-754
  rounding is not modelled.
* `Math.sin` / `Math.cos` (used only by `THREE.Matrix4.makeRotationFromEuler`)
  are transcendental, hence not exactly representable over `ℚ`; the export
  routine is therefore parametrised by an arbitrary pair of functions
  `Trig`, and theorems that depend on trigonometric values at `0` assume
  only `sin 0 = 0` and `cos 0 = 1`, which every faithful implementation
  satisfies.
* `Math.PI` is the IEEE-754 double closest to π, an exact rational,
  embedded verbatim below.
* JavaScript `Map<number, number>` is modelled as an association list in
  insertion order; `Map.set` overwrites an existing key in place and
  otherwise appends, exactly as JS insertion-order semantics prescribe.
* Class instances become immutable state records, and methods become
  functions from state to state.
-/

namespace DeforumPilot

/-- `src/types.ts` `Sample`: one captured camera instant. -/
structure Sample where
  frame : ℕ
  timeSeconds : ℚ
  px : ℚ
  py : ℚ
  pz : ℚ
  rx : ℚ
  ry : ℚ
  rz : ℚ
  fov : ℚ
  deriving Repr, DecidableEq

/-- `src/types.ts` `ChannelArrays`: seven parallel per-frame channels. -/
structure ChannelArrays where
  translation_x : List ℚ
  translation_y : List ℚ
  translation_z : List ℚ
  rotation_3d_x : List ℚ
  rotation_3d_y : List ℚ
  rotation_3d_z : List ℚ
  fov : List ℚ
  deriving Repr, DecidableEq

/-- `src/types.ts` `SmoothingOptions` (the `method` field is the constant
`'average'` and is never consulted by the logic, so it is omitted). -/
structure SmoothingOptions where
  windowSize : ℕ
  iterations : ℕ
  nonDestructive : Bool
  deriving Repr, DecidableEq

/-- `ExportOptions` as destructured by `Exporter.generateSchedules` in
`src/logic/export.ts` (frame fields are integral; `masterScaleTranslate`
and `masterScaleRotate` may be `undefined`, hence `Option`). -/
structure ExportOptions where
  frameStart : ℤ
  frameEnd : ℤ
  frameStep : ℤ
  axisScaleX : ℚ
  axisScaleY : ℚ
  axisScaleZ : ℚ
  includeEmptyFrames : Bool
  cadence : ℤ
  masterScaleTranslate : Option ℚ
  masterScaleRotate : Option ℚ
  deriving Repr, DecidableEq

/-- `src/types.ts` `DeforumSchedules` (six exported motion channels). -/
structure DeforumSchedules where
  translation_x : String
  translation_y : String
  translation_z : String
  rotation_3d_x : String
  rotation_3d_y : String
  rotation_3d_z : String
  deriving Repr, DecidableEq

/-! ## Decimal serialization of schedule values

JavaScript serializes a number with its shortest round-trip decimal form
(`${value}`).  Every value arising in the verified scenarios is an exact
decimal fraction, for which that form is plain decimal notation; the
printer below produces exactly that notation for such rationals. -/

/-- Decimal digits of the fractional part `rem / den`, with fuel:
long division of `rem` by `den` in base 10. -/
def fracDigits : ℕ → ℕ → ℕ → String
  | 0, _, _ => ""
  | fuel + 1, rem, den =>
    if rem = 0 then ""
    else
      let rem10 := rem * 10
      Nat.repr (rem10 / den) ++ fracDigits fuel (rem10 % den) den

/-- Shortest decimal rendering of an exact-decimal rational, matching the
JavaScript template-literal serialization of the same value. -/
def numToString (q : ℚ) : String :=
  let sign := if q.num < 0 then "-" else ""
  let n := q.num.natAbs
  let d := q.den
  if n % d = 0 then sign ++ Nat.repr (n / d)
  else sign ++ Nat.repr (n / d) ++ "." ++ fracDigits 30 (n % d) d

/-! ## JS `Map<number, number>` as an insertion-ordered association list -/

/-- The frame→value maps of `generateSchedules`. -/
abbrev FrameMap := List (ℤ × ℚ)

/-- `Map.prototype.has`. -/
def mapHas (m : FrameMap) (k : ℤ) : Bool :=
  m.any (fun p => p.1 = k)

/-- `Map.prototype.set`: overwrite in place when the key is present,
append otherwise (JS insertion-order semantics). -/
def mapSet (m : FrameMap) (k : ℤ) (v : ℚ) : FrameMap :=
  if mapHas m k then m.map (fun p => if p.1 = k then (k, v) else p)
  else m ++ [(k, v)]

/-- `Map.prototype.get` (as an `Option`). -/
def mapGet (m : FrameMap) (k : ℤ) : Option ℚ :=
  (m.find? (fun p => p.1 = k)).map Prod.snd

/-- Insert an entry into a list sorted by ascending frame. -/
def insertByFrame (p : ℤ × ℚ) : FrameMap → FrameMap
  | [] => [p]
  | q :: t => if p.1 ≤ q.1 then p :: q :: t else q :: insertByFrame p t

/-- `Array.from(map.entries()).sort((a, b) => a[0] - b[0])`. -/
def sortByFrame (m : FrameMap) : FrameMap :=
  m.foldr insertByFrame []

/-- `Exporter.buildScheduleString`: sort entries by frame number and join
them as `frame:(value), frame:(value), ...`. -/
def buildScheduleString (frameValueMap : FrameMap) : String :=
  String.intercalate ", "
    ((sortByFrame frameValueMap).map
      (fun p => Int.repr p.1 ++ ":(" ++ numToString p.2 ++ ")"))

/-! ## Rotation geometry (`THREE.Euler` / `THREE.Matrix4` fragment used)

The export path builds a rotation matrix from a `'YXZ'` Euler triple,
inverts it, and applies it to a translation vector with `w = 1`.  The
matrix has a zero translation column and unit bottom row, so the 4×4
objects are embedded as their upper-left 3×3 blocks; `Matrix4.invert`
restricted to such matrices is exactly the 3×3 adjugate inverse (with the
same `det = 0 ↦ zero matrix` convention as THREE). -/

/-- The sine/cosine pair used by `THREE.Matrix4.makeRotationFromEuler`
(`Math.sin`/`Math.cos`).  Transcendental functions have no exact rational
embedding, so the export routine is parametrised over them; theorems
assume only the exact identities they need (e.g. `sin 0 = 0`). -/
structure Trig where
  sin : ℚ → ℚ
  cos : ℚ → ℚ

/-- A 3×3 matrix, rows × columns. -/
structure Mat3 where
  m11 : ℚ
  m12 : ℚ
  m13 : ℚ
  m21 : ℚ
  m22 : ℚ
  m23 : ℚ
  m31 : ℚ
  m32 : ℚ
  m33 : ℚ
  deriving Repr, DecidableEq

/-- A 3-vector (`THREE.Vector3`). -/
structure Vec3 where
  x : ℚ
  y : ℚ
  z : ℚ
  deriving Repr, DecidableEq

/-- `THREE.Matrix4.makeRotationFromEuler` for order `'YXZ'`:
with `a = cos x`, `b = sin x`, `c = cos y`, `d = sin y`, `e = cos z`,
`f = sin z`, the matrix entries follow THREE's `YXZ` branch
(`ce = c*e`, `cf = c*f`, `de = d*e`, `df = d*f`). -/
def makeRotationFromEulerYXZ (t : Trig) (x y z : ℚ) : Mat3 :=
  let a := t.cos x
  let b := t.sin x
  let c := t.cos y
  let d := t.sin y
  let e := t.cos z
  let f := t.sin z
  let ce := c * e
  let cf := c * f
  let de := d * e
  let df := d * f
  { m11 := ce + df * b, m12 := de * b - cf, m13 := a * d
    m21 := a * f,       m22 := a * e,       m23 := -b
    m31 := cf * b - de, m32 := df + ce * b, m33 := a * c }

/-- Determinant of the 3×3 block (equal to the 4×4 determinant for a
rotation-block matrix with unit bottom row). -/
def Mat3.det (M : Mat3) : ℚ :=
  M.m11 * (M.m22 * M.m33 - M.m23 * M.m32) -
    M.m12 * (M.m21 * M.m33 - M.m23 * M.m31) +
    M.m13 * (M.m21 * M.m32 - M.m22 * M.m31)

/-- `THREE.Matrix4.invert` restricted to rotation-block matrices:
adjugate over determinant, and the zero matrix when `det = 0`. -/
def Mat3.invert (M : Mat3) : Mat3 :=
  let d := M.det
  if d = 0 then
    { m11 := 0, m12 := 0, m13 := 0, m21 := 0, m22 := 0, m23 := 0,
      m31 := 0, m32 := 0, m33 := 0 }
  else
    { m11 := (M.m22 * M.m33 - M.m23 * M.m32) / d
      m12 := (M.m13 * M.m32 - M.m12 * M.m33) / d
      m13 := (M.m12 * M.m23 - M.m13 * M.m22) / d
      m21 := (M.m23 * M.m31 - M.m21 * M.m33) / d
      m22 := (M.m11 * M.m33 - M.m13 * M.m31) / d
      m23 := (M.m13 * M.m21 - M.m11 * M.m23) / d
      m31 := (M.m21 * M.m32 - M.m22 * M.m31) / d
      m32 := (M.m12 * M.m31 - M.m11 * M.m32) / d
      m33 := (M.m11 * M.m22 - M.m12 * M.m21) / d }

/-- `THREE.Vector3.applyMatrix4` for a rotation-block matrix (`w = 1`,
no perspective divide since the bottom row is `0 0 0 1`). -/
def Mat3.apply (M : Mat3) (v : Vec3) : Vec3 :=
  { x := M.m11 * v.x + M.m12 * v.y + M.m13 * v.z
    y := M.m21 * v.x + M.m22 * v.y + M.m23 * v.z
    z := M.m31 * v.x + M.m32 * v.y + M.m33 * v.z }

/-! ## `Exporter.generateSchedules` -/

/-- The IEEE-754 double closest to π, i.e. the exact rational value of
JavaScript's `Math.PI`. -/
def mathPI : ℚ := 884279719003555 / 281474976710656

/-- `Exporter.radiansToDegrees`: `radians * (180 / Math.PI)`. -/
def radiansToDegrees (radians : ℚ) : ℚ :=
  radians * (180 / mathPI)

/-- The inline `mapScale` helper of `generateSchedules`: map slider values
to scale factors, `undefined`/0 ↦ 1, positive `v` ↦ `v`,
negative `v` ↦ `1/(-v)`. -/
def mapScale (v : Option ℚ) : ℚ :=
  let x := v.getD 0
  if x = 0 then 1
  else if x > 0 then x
  else 1 / (-x)

/-- JavaScript array read `arr[frame]` with an integer frame index.
All verified executions read in-bounds only (`0 ≤ frame < length`); the
out-of-range `undefined` (which would poison arithmetic as `NaN`) is
collapsed to a default of `0` and never relied upon by any theorem. -/
def chGet (l : List ℚ) (frame : ℤ) : ℚ :=
  if frame < 0 then 0 else l.getD frame.toNat 0

/-- The frame sequence of a loop
`for (frame = start; frame <= stop; frame += step)` for a positive step
(the loop does not terminate for `step ≤ 0`, which option validation
excludes; that case is embedded as the empty sequence). -/
def windowFrames (start stop step : ℤ) : List ℤ :=
  if step ≤ 0 ∨ stop < start then []
  else
    (List.range ((stop - start).toNat / step.toNat + 1)).map
      (fun k => start + step * Int.ofNat k)

/-- The frame sequence of the export loop: `windowFrames`, truncated by
the in-loop `if (frame >= totalFrames) break`. -/
def loopFrames (start stop step tot : ℤ) : List ℤ :=
  (windowFrames start stop step).takeWhile (fun f => f < tot)

/-- The six frame→value maps accumulated by the export loop, plus the
loop-carried `initializedLocal` / `prevKeyFrame` registers. -/
structure LoopState where
  initialized : Bool
  prev : ℤ
  tx : FrameMap
  ty : FrameMap
  tz : FrameMap
  rx : FrameMap
  ry : FrameMap
  rz : FrameMap

/-- One iteration of the export loop of `generateSchedules`
(`src/logic/export.ts` lines 78–135): cadence skip, first-keyframe zero
delta, camera-local world-delta reprojection for later keyframes, rotation
deltas in scaled degrees, and the trailing `prevKeyFrame` advance. -/
def expStep (t : Trig) (o : ExportOptions) (ca : ChannelArrays) (sfc : ℤ)
    (st : LoopState) (frame : ℤ) : LoopState :=
  if o.cadence > 1 ∧ frame % o.cadence ≠ 0 then st
  else
    let translateFactor := mapScale o.masterScaleTranslate
    let rotateFactor := mapScale o.masterScaleRotate
    let st1 :=
      if st.initialized = false then
        { st with
          tx := mapSet st.tx frame 0
          ty := mapSet st.ty frame 0
          tz := mapSet st.tz frame 0
          initialized := true
          prev := frame }
      else
        let worldDelta : Vec3 :=
          { x := chGet ca.translation_x frame - chGet ca.translation_x st.prev
            y := chGet ca.translation_y frame - chGet ca.translation_y st.prev
            z := chGet ca.translation_z frame - chGet ca.translation_z st.prev }
        let prevEuler := makeRotationFromEulerYXZ t
          (chGet ca.rotation_3d_x st.prev)
          (chGet ca.rotation_3d_y st.prev)
          (chGet ca.rotation_3d_z st.prev)
        let invRot := prevEuler.invert
        let localDelta := invRot.apply worldDelta
        { st with
          tx := mapSet st.tx frame (translateFactor * (localDelta.x * o.axisScaleX))
          ty := mapSet st.ty frame (translateFactor * (-localDelta.y * o.axisScaleY))
          tz := mapSet st.tz frame (translateFactor * (-localDelta.z * o.axisScaleZ)) }
    let st2 :=
      if frame = sfc then
        { st1 with
          rx := mapSet st1.rx frame 0
          ry := mapSet st1.ry frame 0
          rz := mapSet st1.rz frame 0 }
      else
        let drx := chGet ca.rotation_3d_x frame - chGet ca.rotation_3d_x st1.prev
        let dry := chGet ca.rotation_3d_y frame - chGet ca.rotation_3d_y st1.prev
        let drz := chGet ca.rotation_3d_z frame - chGet ca.rotation_3d_z st1.prev
        { st1 with
          rx := mapSet st1.rx frame (rotateFactor * (-radiansToDegrees drx * (1/10)))
          ry := mapSet st1.ry frame (rotateFactor * (-radiansToDegrees dry * (1/10)))
          rz := mapSet st1.rz frame (rotateFactor * (radiansToDegrees drz * (1/10))) }
    if st1.initialized then { st2 with prev := frame } else st2

/-- The export loop's emission test: the negation of the `continue`
guard `cadence > 1 && frame % cadence !== 0`. -/
def isKeyframe (o : ExportOptions) (f : ℤ) : Bool :=
  decide (¬(o.cadence > 1 ∧ f % o.cadence ≠ 0))

/-- `startFrameForCadence`:
`cadence > 1 ? Math.ceil(frameStart / cadence) * cadence : frameStart`. -/
def startFrameForCadence (o : ExportOptions) : ℤ :=
  if o.cadence > 1
  then Rat.ceil ((o.frameStart : ℚ) / (o.cadence : ℚ)) * o.cadence
  else o.frameStart

/-- `Exporter.addEmptyFrames`: give every stepped frame of the window that
has no entry yet an explicit `0` entry. -/
def addEmptyFrames (frameMap : FrameMap) (frameStart frameEnd frameStep : ℤ) :
    FrameMap :=
  (windowFrames frameStart frameEnd frameStep).foldl
    (fun m frame => if mapHas m frame then m else mapSet m frame 0) frameMap

/-- `min(frameEnd, totalFrames - 1)` with `totalFrames` read from
`translation_x`. -/
def actualFrameEnd (o : ExportOptions) (ca : ChannelArrays) : ℤ :=
  min o.frameEnd ((ca.translation_x.length : ℤ) - 1)

/-- The state of the export loop's registers and maps before the first
iteration. -/
def initLoopState (sfc : ℤ) : LoopState :=
  { initialized := false, prev := sfc,
    tx := [], ty := [], tz := [], rx := [], ry := [], rz := [] }

/-- The loop state right after the first emitted keyframe: every channel
map holds the single zero entry at that keyframe. -/
def firstStepState (sfc : ℤ) : LoopState :=
  { initialized := true, prev := sfc,
    tx := [(sfc, 0)], ty := [(sfc, 0)], tz := [(sfc, 0)],
    rx := [(sfc, 0)], ry := [(sfc, 0)], rz := [(sfc, 0)] }

/-- The six frame→value maps accumulated by the export loop of
`generateSchedules`, before the conditional empty-frame backfill. -/
def generateMapsLoop (t : Trig) (ca : ChannelArrays) (o : ExportOptions) :
    LoopState :=
  let sfc := startFrameForCadence o
  let afe := actualFrameEnd o ca
  (loopFrames sfc afe o.frameStep (ca.translation_x.length : ℤ)).foldl
    (expStep t o ca sfc) (initLoopState sfc)

/-- The six frame→value maps of `generateSchedules` after the export loop
and the conditional empty-frame backfill, before string building. -/
def generateMaps (t : Trig) (ca : ChannelArrays) (o : ExportOptions) :
    LoopState :=
  let afe := actualFrameEnd o ca
  let looped := generateMapsLoop t ca o
  if o.includeEmptyFrames ∧ o.cadence ≤ 1 then
    { looped with
      tx := addEmptyFrames looped.tx o.frameStart afe o.frameStep
      ty := addEmptyFrames looped.ty o.frameStart afe o.frameStep
      tz := addEmptyFrames looped.tz o.frameStart afe o.frameStep
      rx := addEmptyFrames looped.rx o.frameStart afe o.frameStep
      ry := addEmptyFrames looped.ry o.frameStart afe o.frameStep
      rz := addEmptyFrames looped.rz o.frameStart afe o.frameStep }
  else looped

/-- `Exporter.generateSchedules`. -/
def generateSchedules (t : Trig) (ca : ChannelArrays) (o : ExportOptions) :
    DeforumSchedules :=
  let maps := generateMaps t ca o
  { translation_x := buildScheduleString maps.tx
    translation_y := buildScheduleString maps.ty
    translation_z := buildScheduleString maps.tz
    rotation_3d_x := buildScheduleString maps.rx
    rotation_3d_y := buildScheduleString maps.ry
    rotation_3d_z := buildScheduleString maps.rz }

/-! ## `Recorder` (`src/logic/recorder.ts`) -/

/-- The camera fields read by `Recorder.recordSample`
(`THREE.PerspectiveCamera`: position, rotation, fov). -/
structure Pose where
  px : ℚ
  py : ℚ
  pz : ℚ
  rx : ℚ
  ry : ℚ
  rz : ℚ
  fov : ℚ
  deriving Repr, DecidableEq

/-- The mutable fields of a `Recorder` instance. -/
structure RecorderState where
  samples : List Sample
  channelArrays : Option ChannelArrays
  originalChannelArrays : Option ChannelArrays
  isRecording : Bool
  currentFrame : ℕ
  accumulator : ℚ
  fixedDelta : ℚ
  deriving Repr, DecidableEq

/-- `new Recorder(targetFPS)` (constructor defaults plus
`setTargetFPS`). -/
def Recorder.new (targetFPS : ℚ) : RecorderState :=
  { samples := [], channelArrays := none, originalChannelArrays := none,
    isRecording := false, currentFrame := 0, accumulator := 0,
    fixedDelta := 1 / targetFPS }

/-- `Recorder.setTargetFPS`. -/
def Recorder.setTargetFPS (fps : ℚ) (st : RecorderState) : RecorderState :=
  { st with fixedDelta := 1 / fps }

/-- `Recorder.startRecording`. -/
def Recorder.startRecording (st : RecorderState) : RecorderState :=
  { st with
    samples := []
    channelArrays := none
    originalChannelArrays := none
    isRecording := true
    currentFrame := 0
    accumulator := 0 }

/-- `Recorder.recordSample`. -/
def Recorder.recordSample (camera : Pose) (st : RecorderState) :
    RecorderState :=
  let timeSeconds := (st.currentFrame : ℚ) * st.fixedDelta
  let sample : Sample :=
    { frame := st.currentFrame, timeSeconds := timeSeconds,
      px := camera.px, py := camera.py, pz := camera.pz,
      rx := camera.rx, ry := camera.ry, rz := camera.rz,
      fov := camera.fov }
  { st with
    samples := st.samples ++ [sample]
    currentFrame := st.currentFrame + 1 }

/-- Fuel sufficient to exhaust the catch-up loop
`while (accumulator >= fixedDelta)`: one step per whole timestep
contained in the accumulator.  (For `fixedDelta ≤ 0` with
`accumulator ≥ fixedDelta` the JavaScript loop does not terminate;
`fixedDelta = 1/fps > 0` in every real configuration, and every theorem
below assumes a positive timestep.) -/
def catchUpFuel (acc delta : ℚ) : ℕ :=
  if 0 < delta then (Rat.floor (acc / delta)).toNat + 1 else 0

/-- The body of `Recorder.update`'s catch-up loop, structurally recursive
on fuel; `recorderUpdate` always supplies enough fuel, and
`recorderUpdate_eq` below recovers the literal while-loop unfolding. -/
def updateLoop (camera : Pose) : ℕ → RecorderState → RecorderState
  | 0, st => st
  | fuel + 1, st =>
    if st.fixedDelta ≤ st.accumulator then
      updateLoop camera fuel
        (Recorder.recordSample camera
          { st with accumulator := st.accumulator - st.fixedDelta })
    else st

/-- `Recorder.update(camera, deltaTime)`. -/
def Recorder.update (camera : Pose) (deltaTime : ℚ) (st : RecorderState) :
    RecorderState :=
  if st.isRecording = false then st
  else
    let st := { st with accumulator := st.accumulator + deltaTime }
    updateLoop camera (catchUpFuel st.accumulator st.fixedDelta) st

/-- `Recorder.nonDestructiveCopy` (fresh arrays with the same contents;
array contents are values in this embedding, so this is the identity
record rebuild). -/
def nonDestructiveCopy (arrays : ChannelArrays) : ChannelArrays :=
  { translation_x := arrays.translation_x
    translation_y := arrays.translation_y
    translation_z := arrays.translation_z
    rotation_3d_x := arrays.rotation_3d_x
    rotation_3d_y := arrays.rotation_3d_y
    rotation_3d_z := arrays.rotation_3d_z
    fov := arrays.fov }

/-- `Recorder.buildChannelArrays`: no-op on an empty sample list,
otherwise fills the seven parallel arrays from the sample sequence and
snapshots them as the revert baseline. -/
def Recorder.buildChannelArrays (st : RecorderState) : RecorderState :=
  if st.samples = [] then st
  else
    let arrays : ChannelArrays :=
      { translation_x := st.samples.map Sample.px
        translation_y := st.samples.map Sample.py
        translation_z := st.samples.map Sample.pz
        rotation_3d_x := st.samples.map Sample.rx
        rotation_3d_y := st.samples.map Sample.ry
        rotation_3d_z := st.samples.map Sample.rz
        fov := st.samples.map Sample.fov }
    { st with
      channelArrays := some arrays
      originalChannelArrays := some (nonDestructiveCopy arrays) }

/-- `Recorder.stopRecording`. -/
def Recorder.stopRecording (st : RecorderState) : RecorderState :=
  Recorder.buildChannelArrays { st with isRecording := false }

/-- `Recorder.applyMovingAverage`: centered moving average with
boundary shrink; `windowSize ≤ 1` returns a copy of the input. -/
def applyMovingAverage (data : List ℚ) (windowSize : ℕ) : List ℚ :=
  if windowSize ≤ 1 then data
  else
    let halfWindow := windowSize / 2
    (List.range data.length).map (fun i =>
      let lo := i - halfWindow
      let hi := min (data.length - 1) (i + halfWindow)
      let idxs := List.range' lo (hi + 1 - lo)
      let sum := (idxs.map (fun j => data.getD j 0)).sum
      let count := (idxs.length : ℚ)
      sum / count)

/-- `Recorder.smoothChannelArrays`: one smoothing pass over all seven
channels. -/
def smoothChannelArrays (windowSize : ℕ) (ca : ChannelArrays) :
    ChannelArrays :=
  { translation_x := applyMovingAverage ca.translation_x windowSize
    translation_y := applyMovingAverage ca.translation_y windowSize
    translation_z := applyMovingAverage ca.translation_z windowSize
    rotation_3d_x := applyMovingAverage ca.rotation_3d_x windowSize
    rotation_3d_y := applyMovingAverage ca.rotation_3d_y windowSize
    rotation_3d_z := applyMovingAverage ca.rotation_3d_z windowSize
    fov := applyMovingAverage ca.fov windowSize }

/-- `Recorder.applySmoothing(options)`. -/
def Recorder.applySmoothing (options : SmoothingOptions) (st : RecorderState) :
    RecorderState :=
  match st.channelArrays with
  | none => st
  | some ca =>
    let st :=
      if options.nonDestructive ∧ st.originalChannelArrays = none then
        { st with originalChannelArrays := some (nonDestructiveCopy ca) }
      else st
    { st with
      channelArrays :=
        some (Nat.iterate (smoothChannelArrays options.windowSize)
          options.iterations ca) }

/-- `Recorder.revertSmoothing`. -/
def Recorder.revertSmoothing (st : RecorderState) : RecorderState :=
  match st.originalChannelArrays with
  | none => st
  | some orig => { st with channelArrays := some (nonDestructiveCopy orig) }

/-- `Recorder.clear`. -/
def Recorder.clear (st : RecorderState) : RecorderState :=
  { st with
    samples := []
    channelArrays := none
    originalChannelArrays := none
    isRecording := false
    currentFrame := 0 }

/-- `Recorder.getChannelArrays` (value view; the reference-level shallow
copy is examined separately in the aliasing section below). -/
def Recorder.getChannelArrays (st : RecorderState) : Option ChannelArrays :=
  st.channelArrays

/-- The camera-state record returned by `Recorder.getCameraStateAtFrame`
(`THREE.Vector3` position, `'XYZ'` `THREE.Euler` rotation, fov). -/
structure CameraState where
  position : Vec3
  rotationX : ℚ
  rotationY : ℚ
  rotationZ : ℚ
  fov : ℚ
  deriving Repr, DecidableEq

/-- `Recorder.getCameraStateAtFrame(frame)`: `null` without channel
arrays or out of range, otherwise the per-channel values at `frame`. -/
def Recorder.getCameraStateAtFrame (st : RecorderState) (frame : ℤ) :
    Option CameraState :=
  match st.channelArrays with
  | none => none
  | some ca =>
    if frame < 0 ∨ frame ≥ (ca.translation_x.length : ℤ) then none
    else
      some
        { position :=
            { x := chGet ca.translation_x frame
              y := chGet ca.translation_y frame
              z := chGet ca.translation_z frame }
          rotationX := chGet ca.rotation_3d_x frame
          rotationY := chGet ca.rotation_3d_y frame
          rotationZ := chGet ca.rotation_3d_z frame
          fov := chGet ca.fov frame }

/-! ## `Playback` (`src/logic/playback.ts`) -/

/-- The mutable fields of a `Playback` instance, together with the
`Recorder` it reads from. -/
structure PlaybackState where
  recorder : RecorderState
  isPlaying : Bool
  isPaused : Bool
  currentFrame : ℤ
  accumulator : ℚ
  fixedDelta : ℚ
  deriving Repr, DecidableEq

/-- `Playback.getTotalFrames` (= `recorder.getTotalFrames()`), the number
of recorded samples. -/
def Playback.getTotalFrames (p : PlaybackState) : ℤ :=
  (p.recorder.samples.length : ℤ)

/-- `Playback.getCurrentCameraState`: `null` while not playing or once
the frame counter has reached the total frame count; otherwise the
recorder's camera state one frame behind the internal counter. -/
def Playback.getCurrentCameraState (p : PlaybackState) : Option CameraState :=
  if p.isPlaying = false ∨ p.currentFrame ≥ Playback.getTotalFrames p then
    none
  else
    Recorder.getCameraStateAtFrame p.recorder (p.currentFrame - 1)

/-! ## Reference-level model of the accessor copies

The value-level embedding above cannot express aliasing, so the accessor
`Recorder.getChannelArrays` is additionally modelled at the JavaScript
reference level: arrays live in a heap addressed by references, a
`ChannelArrays` object is a record of seven array references, and the
spread `{ ...obj }` copies the record of references without copying the
arrays they point to. -/

/-- A `ChannelArrays` object at the reference level: a record of seven
array references (heap addresses). -/
structure CARefs where
  translation_x : ℕ
  translation_y : ℕ
  translation_z : ℕ
  rotation_3d_x : ℕ
  rotation_3d_y : ℕ
  rotation_3d_z : ℕ
  fov : ℕ
  deriving Repr, DecidableEq

/-- A heap of JavaScript number arrays. -/
def Heap : Type := ℕ → List ℚ

/-- The JavaScript object spread `{ ...obj }`: a fresh object whose
fields hold the same values — here, the same array references. -/
def spreadCopy (o : CARefs) : CARefs :=
  { translation_x := o.translation_x
    translation_y := o.translation_y
    translation_z := o.translation_z
    rotation_3d_x := o.rotation_3d_x
    rotation_3d_y := o.rotation_3d_y
    rotation_3d_z := o.rotation_3d_z
    fov := o.fov }

/-- `Recorder.getChannelArrays` at the reference level:
`this.channelArrays ? { ...this.channelArrays } : null`. -/
def getChannelArraysRef (internal : Option CARefs) : Option CARefs :=
  internal.map spreadCopy

/-- A caller-side element assignment `arr[i] = v` through an array
reference: mutates the heap cell the reference points to. -/
def writeElem (h : Heap) (r : ℕ) (i : ℕ) (v : ℚ) : Heap :=
  fun r' => if r' = r then (h r).set i v else h r'

/-- Dereference an array. -/
def readArr (h : Heap) (r : ℕ) : List ℚ :=
  h r

/-- A concrete recorder heap: the internal `channelArrays.translation_x`
is the array `[5]` stored at address `0`. -/
def demoHeap : Heap :=
  fun r => if r = 0 then [5] else []

/-- The internal `channelArrays` object of the demo recorder. -/
def demoRefs : CARefs :=
  { translation_x := 0, translation_y := 1, translation_z := 2,
    rotation_3d_x := 3, rotation_3d_y := 4, rotation_3d_z := 5, fov := 6 }

/-! ## Reachable recorder states

The states a `Recorder` instance can actually be in: constructed once,
then transformed by its public methods (accessors are pure). -/

/-- Closure of the `Recorder` API from the constructor. -/
inductive Reachable : RecorderState → Prop
  | new (fps : ℚ) : Reachable (Recorder.new fps)
  | setTargetFPS (fps : ℚ) (st : RecorderState) :
      Reachable st → Reachable (Recorder.setTargetFPS fps st)
  | startRecording (st : RecorderState) :
      Reachable st → Reachable (Recorder.startRecording st)
  | stopRecording (st : RecorderState) :
      Reachable st → Reachable (Recorder.stopRecording st)
  | update (camera : Pose) (deltaTime : ℚ) (st : RecorderState) :
      Reachable st → Reachable (Recorder.update camera deltaTime st)
  | applySmoothing (options : SmoothingOptions) (st : RecorderState) :
      Reachable st → Reachable (Recorder.applySmoothing options st)
  | revertSmoothing (st : RecorderState) :
      Reachable st → Reachable (Recorder.revertSmoothing st)
  | clear (st : RecorderState) :
      Reachable st → Reachable (Recorder.clear st)

/-! ## Concrete instances used by the witness theorems and the
end-to-end scenario -/

/-- A trig pair that is exact at `0` (all any claim needs). -/
def zeroTrig : Trig :=
  { sin := fun _ => 0, cos := fun _ => 1 }

/-- Scenario pose at world position `(0,0,0)`, no rotation. -/
def poseA : Pose := { px := 0, py := 0, pz := 0, rx := 0, ry := 0, rz := 0, fov := 75 }

/-- Scenario pose at world position `(0.1,0,0)`, no rotation. -/
def poseB : Pose := { px := 1/10, py := 0, pz := 0, rx := 0, ry := 0, rz := 0, fov := 75 }

/-- Scenario pose at world position `(0.2,0,0)`, no rotation. -/
def poseC : Pose := { px := 2/10, py := 0, pz := 0, rx := 0, ry := 0, rz := 0, fov := 75 }

/-- The end-to-end scenario recorder just before `stopRecording`: a
30 fps recorder, armed, fed three `update` calls of exactly one timestep
(1/30 s) each at the three scenario poses. -/
def scenarioPreStop : RecorderState :=
  Recorder.update poseC (1/30)
    (Recorder.update poseB (1/30)
      (Recorder.update poseA (1/30)
        (Recorder.startRecording (Recorder.new 30))))

/-- The end-to-end scenario recording, stopped. -/
def scenarioRecorder : RecorderState :=
  Recorder.stopRecording scenarioPreStop

/-- Smoothing options used by the witness theorems. -/
def demoSmoothing : SmoothingOptions :=
  { windowSize := 3, iterations := 1, nonDestructive := true }

/-- The channel arrays the scenario recording builds at stop time. -/
def scenarioCA : ChannelArrays :=
  { translation_x := [0, 1/10, 2/10]
    translation_y := [0, 0, 0]
    translation_z := [0, 0, 0]
    rotation_3d_x := [0, 0, 0]
    rotation_3d_y := [0, 0, 0]
    rotation_3d_z := [0, 0, 0]
    fov := [75, 75, 75] }

/-- The end-to-end scenario export options: full window over the three
frames, unit scales, cadence 1, master scales 1. -/
def scenarioOptions : ExportOptions :=
  { frameStart := 0, frameEnd := 2, frameStep := 1,
    axisScaleX := 1, axisScaleY := 1, axisScaleZ := 1,
    includeEmptyFrames := true, cadence := 1,
    masterScaleTranslate := some 1, masterScaleRotate := some 1 }

/-- Export options of the cadence-filtering scenario: cadence 4,
frames 0–9, step 1. -/
def cadenceOptions : ExportOptions :=
  { frameStart := 0, frameEnd := 9, frameStep := 1,
    axisScaleX := 1, axisScaleY := 1, axisScaleZ := 1,
    includeEmptyFrames := true, cadence := 4,
    masterScaleTranslate := none, masterScaleRotate := none }

/-- A 10-frame straight-line recording used by the cadence scenario. -/
def cadenceArrays : ChannelArrays :=
  { translation_x := [0, 1, 2, 3, 4, 5, 6, 7, 8, 9]
    translation_y := [0, 0, 0, 0, 0, 0, 0, 0, 0, 0]
    translation_z := [0, 0, 0, 0, 0, 0, 0, 0, 0, 0]
    rotation_3d_x := [0, 0, 0, 0, 0, 0, 0, 0, 0, 0]
    rotation_3d_y := [0, 0, 0, 0, 0, 0, 0, 0, 0, 0]
    rotation_3d_z := [0, 0, 0, 0, 0, 0, 0, 0, 0, 0]
    fov := [75, 75, 75, 75, 75, 75, 75, 75, 75, 75] }

/-- A playback that is mid-run: playing, frame counter 1, over the
scenario recording. -/
def scenarioPlaybackPlaying : PlaybackState :=
  { recorder := scenarioRecorder, isPlaying := true, isPaused := false,
    currentFrame := 1, accumulator := 0, fixedDelta := 1/30 }

/-- The same playback, stopped. -/
def scenarioPlaybackStopped : PlaybackState :=
  { recorder := scenarioRecorder, isPlaying := false, isPaused := false,
    currentFrame := 1, accumulator := 0, fixedDelta := 1/30 }

/-- The same playback with the frame counter past the last frame. -/
def scenarioPlaybackEnded : PlaybackState :=
  { recorder := scenarioRecorder, isPlaying := true, isPaused := false,
    currentFrame := 3, accumulator := 0, fixedDelta := 1/30 }

/-! # Theorems -/

/-! ## General lemmas about the embedded operations -/

/-- Copying the seven arrays of a value-level `ChannelArrays` yields the
same value. -/
theorem nonDestructiveCopy_id (a : ChannelArrays) : nonDestructiveCopy a = a :=
  rfl

/-- The catch-up loop never touches the derived arrays, the recording
flag or the timestep. -/
theorem updateLoop_preserves (camera : Pose) :
    ∀ (fuel : ℕ) (st : RecorderState),
      (updateLoop camera fuel st).channelArrays = st.channelArrays
      ∧ (updateLoop camera fuel st).originalChannelArrays
          = st.originalChannelArrays
      ∧ (updateLoop camera fuel st).isRecording = st.isRecording
      ∧ (updateLoop camera fuel st).fixedDelta = st.fixedDelta := by
  intro fuel
  induction fuel with
  | zero => intro st; simp [updateLoop]
  | succ n ih =>
    intro st
    simp only [updateLoop]
    split
    · exact ih _
    · simp

/-- `Recorder.update` never touches the derived arrays. -/
theorem update_preserves_arrays (camera : Pose) (deltaTime : ℚ)
    (st : RecorderState) :
    (Recorder.update camera deltaTime st).channelArrays = st.channelArrays
    ∧ (Recorder.update camera deltaTime st).originalChannelArrays
        = st.originalChannelArrays := by
  unfold Recorder.update
  split
  · simp
  · exact ⟨(updateLoop_preserves camera _ _).1,
      (updateLoop_preserves camera _ _).2.1⟩

/-- Reachable-state invariant: as soon as channel arrays exist, the
revert baseline exists as well (`buildChannelArrays` creates both
together, and nothing discards only the baseline). -/
theorem reachable_baseline_invariant (st : RecorderState)
    (h : Reachable st) :
    st.channelArrays ≠ none → st.originalChannelArrays ≠ none := by
  induction h with
  | new fps => simp [Recorder.new]
  | setTargetFPS fps st _ ih => simpa [Recorder.setTargetFPS] using ih
  | startRecording st _ _ => simp [Recorder.startRecording]
  | stopRecording st _ ih =>
    unfold Recorder.stopRecording Recorder.buildChannelArrays
    split
    · simpa using ih
    · simp
  | update camera dt st _ ih =>
    have h2 := update_preserves_arrays camera dt st
    rw [h2.1, h2.2]; exact ih
  | applySmoothing options st _ ih =>
    unfold Recorder.applySmoothing
    rcases hca : st.channelArrays with _ | ca
    · simp [hca]
    · have horig : st.originalChannelArrays ≠ none := ih (by simp [hca])
      rcases horig' : st.originalChannelArrays with _ | o
      · exact absurd horig' horig
      · simp [horig']
  | revertSmoothing st _ ih =>
    unfold Recorder.revertSmoothing
    rcases horig : st.originalChannelArrays with _ | o
    · simpa [horig] using ih
    · simp [horig]
  | clear st _ _ => simp [Recorder.clear]

/-! ## C2 — accessor copies are shallow, not defensive -/

/-- C2 (refutation at the reference level): `getChannelArrays` returns
`{ ...this.channelArrays }`, whose array fields are the
same references as the internal object's; writing `42` into slot 0 of the
returned object's `translation_x` array overwrites the recorder's
internally stored array, which was `[5]` beforehand. -/
theorem getChannelArrays_aliasing_demo :
    getChannelArraysRef (some demoRefs) = some (spreadCopy demoRefs)
    ∧ (spreadCopy demoRefs).translation_x = demoRefs.translation_x
    ∧ readArr demoHeap demoRefs.translation_x = [5]
    ∧ readArr (writeElem demoHeap (spreadCopy demoRefs).translation_x 0 42)
        demoRefs.translation_x = [42] := by
  refine ⟨rfl, rfl, ?_, ?_⟩ <;>
    simp [readArr, writeElem, demoHeap, demoRefs, spreadCopy]

/-! ## C9 — playback camera-state query -/

/-- C9: querying the current camera state while not playing, or once the
internal frame counter has reached or passed the total frame count,
yields `none`; while playing with the counter in range it yields the
recorder's camera state at the previous frame (counter − 1). -/
theorem getCurrentCameraState_query_semantics (p : PlaybackState) :
    (p.isPlaying = false → Playback.getCurrentCameraState p = none)
    ∧ (p.currentFrame ≥ Playback.getTotalFrames p →
        Playback.getCurrentCameraState p = none)
    ∧ (p.isPlaying = true → p.currentFrame < Playback.getTotalFrames p →
        Playback.getCurrentCameraState p
          = Recorder.getCameraStateAtFrame p.recorder (p.currentFrame - 1)) := by
  refine ⟨?_, ?_, ?_⟩
  · intro h; simp [Playback.getCurrentCameraState, h]
  · intro h; simp [Playback.getCurrentCameraState, h]
  · intro h1 h2
    simp [Playback.getCurrentCameraState, h1, not_le.mpr h2]

section ConcreteEvaluation

attribute [local semireducible] Rat.add Rat.sub Rat.mul Rat.inv

/-- Witness for C9: on the mid-run scenario playback the query returns
the camera state of frame 0 (counter 1 minus one); stopped and
past-the-end playbacks return `none`. -/
theorem getCurrentCameraState_query_semantics_witness :
    Playback.getCurrentCameraState scenarioPlaybackStopped = none
    ∧ Playback.getCurrentCameraState scenarioPlaybackEnded = none
    ∧ Playback.getCurrentCameraState scenarioPlaybackPlaying
        = Recorder.getCameraStateAtFrame scenarioPlaybackPlaying.recorder 0 := by
  refine ⟨?_, ?_, ?_⟩
  · exact (getCurrentCameraState_query_semantics scenarioPlaybackStopped).1 rfl
  · exact (getCurrentCameraState_query_semantics scenarioPlaybackEnded).2.1
      (by decide)
  · exact (getCurrentCameraState_query_semantics scenarioPlaybackPlaying).2.2
      rfl (by decide)

end ConcreteEvaluation

/-! ## C8 / C10 — stop-time baseline and revert semantics -/

/-- Stopping a non-empty recording stores the built arrays and the
baseline as the same value. -/
theorem stopRecording_builds_baseline (st : RecorderState)
    (h : st.samples ≠ []) :
    (Recorder.stopRecording st).channelArrays ≠ none
    ∧ (Recorder.stopRecording st).originalChannelArrays
        = (Recorder.stopRecording st).channelArrays := by
  simp [Recorder.stopRecording, Recorder.buildChannelArrays, h,
    nonDestructiveCopy_id]

/-- On a state whose arrays and baseline coincide, smoothing followed by
revert restores the arrays. -/
theorem revert_after_smoothing_of_baseline (st : RecorderState)
    (opts : SmoothingOptions) (A : ChannelArrays)
    (hca : st.channelArrays = some A)
    (ho : st.originalChannelArrays = some A) :
    (Recorder.revertSmoothing
        (Recorder.applySmoothing opts st)).channelArrays = some A := by
  simp [Recorder.applySmoothing, hca, ho, Recorder.revertSmoothing,
    nonDestructiveCopy_id]

/-- C8: for a recording stopped with at least one sample,
`applySmoothing` then `revertSmoothing` restores the channel arrays to
the stop-time snapshot; repeated reverts are idempotent; revert without a
baseline is a no-op. -/
theorem applySmoothing_revert_roundtrip (st : RecorderState)
    (opts : SmoothingOptions) (h : st.samples ≠ []) :
    (Recorder.revertSmoothing
        (Recorder.applySmoothing opts (Recorder.stopRecording st))).channelArrays
      = (Recorder.stopRecording st).channelArrays
    ∧ (∀ st2 : RecorderState,
        Recorder.revertSmoothing (Recorder.revertSmoothing st2)
          = Recorder.revertSmoothing st2)
    ∧ (∀ st3 : RecorderState, st3.originalChannelArrays = none →
        Recorder.revertSmoothing st3 = st3) := by
  refine ⟨?_, ?_, ?_⟩
  · obtain ⟨hne, hbase⟩ := stopRecording_builds_baseline st h
    rcases hA : (Recorder.stopRecording st).channelArrays with _ | A
    · exact absurd hA hne
    · exact revert_after_smoothing_of_baseline _ opts A hA (hbase.trans hA)
  · intro st2
    rcases horig : st2.originalChannelArrays with _ | o <;>
      simp [Recorder.revertSmoothing, horig, nonDestructiveCopy_id]
  · intro st3 h3
    simp [Recorder.revertSmoothing, h3]

/-- C10: the revert baseline is created unconditionally by
`stopRecording` whenever a sample exists; consequently, on every
reachable recorder state the `nonDestructive` flag has no observable
effect on `applySmoothing`, and revert restores the stop-time arrays even
when smoothing was applied with `nonDestructive = false`. -/
theorem baseline_unconditional_nondestructive_inert :
    (∀ st : RecorderState, st.samples ≠ [] →
        (Recorder.stopRecording st).channelArrays ≠ none
        ∧ (Recorder.stopRecording st).originalChannelArrays
            = (Recorder.stopRecording st).channelArrays)
    ∧ (∀ st : RecorderState, Reachable st → ∀ w i : ℕ,
        Recorder.applySmoothing
            { windowSize := w, iterations := i, nonDestructive := false } st
          = Recorder.applySmoothing
              { windowSize := w, iterations := i, nonDestructive := true } st)
    ∧ (∀ (st : RecorderState) (w i : ℕ), st.samples ≠ [] →
        (Recorder.revertSmoothing
            (Recorder.applySmoothing
              { windowSize := w, iterations := i, nonDestructive := false }
              (Recorder.stopRecording st))).channelArrays
          = (Recorder.stopRecording st).channelArrays) := by
  refine ⟨fun st h => stopRecording_builds_baseline st h, ?_, ?_⟩
  · intro st hr w i
    rcases hca : st.channelArrays with _ | ca
    · simp [Recorder.applySmoothing, hca]
    · have horig := reachable_baseline_invariant st hr (by simp [hca])
      rcases ho : st.originalChannelArrays with _ | o
      · exact absurd ho horig
      · simp [Recorder.applySmoothing, hca, ho]
  · intro st w i h
    obtain ⟨hne, hbase⟩ := stopRecording_builds_baseline st h
    rcases hA : (Recorder.stopRecording st).channelArrays with _ | A
    · exact absurd hA hne
    · exact revert_after_smoothing_of_baseline _ _ A hA (hbase.trans hA)

section ConcreteEvaluationB

attribute [local semireducible] Rat.add Rat.sub Rat.mul Rat.inv

/-- Witness for C8 at the recorded scenario. -/
theorem applySmoothing_revert_roundtrip_witness :
    scenarioPreStop.samples ≠ []
    ∧ (Recorder.revertSmoothing
          (Recorder.applySmoothing demoSmoothing
            (Recorder.stopRecording scenarioPreStop))).channelArrays
        = (Recorder.stopRecording scenarioPreStop).channelArrays :=
  ⟨by decide,
    (applySmoothing_revert_roundtrip scenarioPreStop demoSmoothing
      (by decide)).1⟩

/-- Witness for C10 at the recorded scenario and a fresh recorder. -/
theorem baseline_unconditional_nondestructive_inert_witness :
    ((Recorder.stopRecording scenarioPreStop).channelArrays ≠ none
      ∧ (Recorder.stopRecording scenarioPreStop).originalChannelArrays
          = (Recorder.stopRecording scenarioPreStop).channelArrays)
    ∧ Recorder.applySmoothing
          { windowSize := 3, iterations := 1, nonDestructive := false }
          (Recorder.new 30)
        = Recorder.applySmoothing
            { windowSize := 3, iterations := 1, nonDestructive := true }
            (Recorder.new 30)
    ∧ (Recorder.revertSmoothing
          (Recorder.applySmoothing
            { windowSize := 3, iterations := 1, nonDestructive := false }
            (Recorder.stopRecording scenarioPreStop))).channelArrays
        = (Recorder.stopRecording scenarioPreStop).channelArrays :=
  ⟨baseline_unconditional_nondestructive_inert.1 scenarioPreStop (by decide),
    baseline_unconditional_nondestructive_inert.2.1 (Recorder.new 30)
      (Reachable.new 30) 3 1,
    baseline_unconditional_nondestructive_inert.2.2 scenarioPreStop 3 1
      (by decide)⟩

end ConcreteEvaluationB

/-! ## C7 — centered moving average with boundary shrink -/

/-- A sum over a `ℕ`-interval is the list sum the filter computes. -/
theorem sum_Icc_eq_range'_sum (a b : ℕ) (f : ℕ → ℚ) :
    ∑ j in Finset.Icc a b, f j = ((List.range' a (b + 1 - a)).map f).sum := by
  rw [Nat.Icc_eq_range']
  rfl

/-- Element `i` of a mapped `List.range`. -/
theorem getD_map_range (n i : ℕ) (g : ℕ → ℚ) (h : i < n) :
    ((List.range n).map g).getD i 0 = g i := by
  rw [List.getD_eq_getElem?_getD, List.getElem?_map, List.getElem?_range h]
  rfl

/-- C7: the smoothing filter is the centered moving average whose window
shrinks at both boundaries — output index `i` is the mean of the inputs
over `[max 0 (i - ⌊w/2⌋), min (length-1) (i + ⌊w/2⌋)]` — a window of at
most 1 copies the input, and on `[10,20,30,40]` with window 3 the first
two outputs are 15 and 20. -/
theorem movingAverage_centered_boundary_shrink (data : List ℚ) (w : ℕ) :
    (w ≤ 1 → applyMovingAverage data w = data)
    ∧ (applyMovingAverage data w).length = data.length
    ∧ (1 < w → ∀ i : ℕ, i < data.length →
        (applyMovingAverage data w).getD i 0
          = (∑ j in Finset.Icc (i - w / 2) (min (data.length - 1) (i + w / 2)),
              data.getD j 0)
            / ((min (data.length - 1) (i + w / 2) + 1 - (i - w / 2) : ℕ) : ℚ))
    ∧ (applyMovingAverage [10, 20, 30, 40] 3).getD 0 0 = 15
    ∧ (applyMovingAverage [10, 20, 30, 40] 3).getD 1 0 = 20 := by
  refine ⟨?_, ?_, ?_, ?_, ?_⟩
  · intro h; simp [applyMovingAverage, h]
  · by_cases h : w ≤ 1
    · simp [applyMovingAverage, h]
    · simp [applyMovingAverage, h]
  · intro hw i hi
    have h1 : ¬ w ≤ 1 := by omega
    rw [applyMovingAverage, if_neg h1, getD_map_range _ _ _ hi,
      sum_Icc_eq_range'_sum]
    simp [List.length_range']
  · norm_num [applyMovingAverage, List.range_succ, List.range']
  · norm_num [applyMovingAverage, List.range_succ, List.range']

/-- Witness for C7: window 1 copies its input, and the window-3 mean
formula instantiated at index 0 of `[10,20,30,40]`. -/
theorem movingAverage_centered_boundary_shrink_witness :
    applyMovingAverage [10, 20, 30, 40] 1 = [10, 20, 30, 40]
    ∧ (applyMovingAverage [10, 20, 30, 40] 3).getD 0 0
        = (∑ j in Finset.Icc 0 1, [(10 : ℚ), 20, 30, 40].getD j 0) / (2 : ℕ) := by
  constructor
  · exact (movingAverage_centered_boundary_shrink [10, 20, 30, 40] 1).1
      (by norm_num)
  · have h := (movingAverage_centered_boundary_shrink [10, 20, 30, 40] 3).2.2.1
      (by norm_num) 0 (by norm_num)
    simpa using h

/-! ## C6 — fixed-timestep sampling determinism -/

/-- Batteries' `Rat.floor` agrees with the mathematical floor. -/
theorem rat_floor_eq (q : ℚ) : Rat.floor q = ⌊q⌋ := by
  rw [Rat.floor_def', Rat.floor_def]

/-- Full characterisation of the catch-up loop under a positive timestep
and sufficient fuel: it emits one sample per whole timestep contained in
the accumulator and leaves the remainder. -/
theorem updateLoop_spec (camera : Pose) (delta : ℚ) (hd : 0 < delta) :
    ∀ (fuel : ℕ) (st : RecorderState), st.fixedDelta = delta →
      0 ≤ st.accumulator →
      (⌊st.accumulator / delta⌋).toNat < fuel →
      (updateLoop camera fuel st).samples.length
          = st.samples.length + (⌊st.accumulator / delta⌋).toNat
      ∧ (updateLoop camera fuel st).accumulator
          = st.accumulator - delta * (⌊st.accumulator / delta⌋ : ℚ)
      ∧ (updateLoop camera fuel st).fixedDelta = delta
      ∧ (updateLoop camera fuel st).isRecording = st.isRecording := by
  intro fuel
  induction fuel with
  | zero => intro st _ _ hfuel; omega
  | succ n ih =>
    intro st hfd hacc hfuel
    by_cases hge : st.fixedDelta ≤ st.accumulator
    · have hge' : delta ≤ st.accumulator := hfd ▸ hge
      have hfl1 : (1 : ℚ) ≤ st.accumulator / delta :=
        (one_le_div hd).mpr hge'
      have hfloor1 : 1 ≤ ⌊st.accumulator / delta⌋ := by
        exact_mod_cast Int.le_floor.mpr (by exact_mod_cast hfl1)
      have hstep : (st.accumulator - delta) / delta
          = st.accumulator / delta - 1 := by
        field_simp
      have hfloor_step : ⌊(st.accumulator - delta) / delta⌋
          = ⌊st.accumulator / delta⌋ - 1 := by
        rw [hstep]
        exact_mod_cast Int.floor_sub_int (st.accumulator / delta) 1
      set st' := Recorder.recordSample camera
        { st with accumulator := st.accumulator - st.fixedDelta } with hst'
      have hst'acc : st'.accumulator = st.accumulator - delta := by
        simp [hst', Recorder.recordSample, hfd]
      have hst'fd : st'.fixedDelta = delta := by
        simp [hst', Recorder.recordSample, hfd]
      have hst'len : st'.samples.length = st.samples.length + 1 := by
        simp [hst', Recorder.recordSample]
      have hst'rec : st'.isRecording = st.isRecording := by
        simp [hst', Recorder.recordSample]
      have hacc' : 0 ≤ st'.accumulator := by
        rw [hst'acc]; linarith
      have hfuel' : (⌊st'.accumulator / delta⌋).toNat < n := by
        rw [hst'acc, hfloor_step]
        omega
      obtain ⟨l1, a1, f1, r1⟩ := ih st' hst'fd hacc' hfuel'
      have hloop : updateLoop camera (n + 1) st = updateLoop camera n st' := by
        simp only [updateLoop, if_pos hge, hst']
      refine ⟨?_, ?_, ?_, ?_⟩
      · rw [hloop, l1, hst'len, hst'acc, hfloor_step]; omega
      · rw [hloop, a1, hst'acc, hfloor_step]
        push_cast
        ring
      · rw [hloop, f1]
      · rw [hloop, r1, hst'rec]
    · have hlt : st.accumulator < delta := by
        rw [hfd] at hge; linarith [not_le.mp hge]
      have hfloor0 : ⌊st.accumulator / delta⌋ = 0 := by
        rw [Int.floor_eq_zero_iff]
        constructor
        · positivity
        · rw [div_lt_one hd]; exact hlt
      have hloop : updateLoop camera (n + 1) st = st := by
        simp only [updateLoop, if_neg hge]
      rw [hloop, hfloor0]
      simp [hfd]

/-- `Recorder.update` on an armed recorder: confirmation of the sample
count and remainder produced by one call. -/
theorem update_spec (camera : Pose) (d : ℚ) (st : RecorderState)
    (hrec : st.isRecording = true) (hd : 0 < st.fixedDelta)
    (hacc : 0 ≤ st.accumulator + d) :
    (Recorder.update camera d st).samples.length
        = st.samples.length + (⌊(st.accumulator + d) / st.fixedDelta⌋).toNat
    ∧ (Recorder.update camera d st).accumulator
        = (st.accumulator + d)
          - st.fixedDelta * (⌊(st.accumulator + d) / st.fixedDelta⌋ : ℚ)
    ∧ (Recorder.update camera d st).fixedDelta = st.fixedDelta
    ∧ (Recorder.update camera d st).isRecording = true := by
  have hne : ¬ st.isRecording = false := by simp [hrec]
  unfold Recorder.update
  rw [if_neg hne]
  have hfuel : (⌊(st.accumulator + d) / st.fixedDelta⌋).toNat
      < catchUpFuel (st.accumulator + d) st.fixedDelta := by
    simp only [catchUpFuel, if_pos hd, rat_floor_eq]
    omega
  obtain ⟨l1, a1, f1, r1⟩ := updateLoop_spec camera st.fixedDelta hd
    (catchUpFuel (st.accumulator + d) st.fixedDelta)
    { st with accumulator := st.accumulator + d } rfl hacc hfuel
  exact ⟨l1, a1, f1, by rw [r1]; exact hrec⟩

/-- The invariant carried over a whole sequence of `update` calls. -/
theorem foldl_update_spec (delta : ℚ) (hd : 0 < delta) :
    ∀ (us : List (Pose × ℚ)) (st : RecorderState),
      st.isRecording = true → st.fixedDelta = delta →
      0 ≤ st.accumulator → st.accumulator < delta →
      (∀ u ∈ us, 0 ≤ u.2) →
      (us.foldl (fun s u => Recorder.update u.1 u.2 s) st).samples.length
          = st.samples.length
            + (⌊(st.accumulator + (us.map Prod.snd).sum) / delta⌋).toNat := by
  intro us
  induction us with
  | nil =>
    intro st _ _ hacc hlt _
    have h0 : ⌊st.accumulator / delta⌋ = 0 := by
      rw [Int.floor_eq_zero_iff]
      exact ⟨by positivity, by rw [div_lt_one hd]; exact hlt⟩
    simp [h0]
  | cons u us ih =>
    intro st hrec hfd hacc hlt hnn
    obtain ⟨p, d⟩ := u
    have hd0 : 0 ≤ d := hnn (p, d) (List.mem_cons_self _ _)
    have hx : 0 ≤ st.accumulator + d := by linarith
    obtain ⟨l1, a1, f1, r1⟩ := update_spec p d st hrec (hfd ▸ hd) hx
    set st1 := Recorder.update p d st with hst1
    set x := st.accumulator + d with hxdef
    have hfl : (0 : ℤ) ≤ ⌊x / delta⌋ := by
      apply Int.floor_nonneg.mpr
      positivity
    have ha1 : st1.accumulator = x - delta * (⌊x / delta⌋ : ℚ) := by
      rw [a1, hfd]
    have hacc1 : 0 ≤ st1.accumulator := by
      rw [ha1]
      have := Int.fract_nonneg (x / delta)
      have hfr : Int.fract (x / delta) = x / delta - ⌊x / delta⌋ := rfl
      rw [hfr] at this
      have : 0 ≤ delta * (x / delta - ⌊x / delta⌋) := by positivity
      calc (0 : ℚ) ≤ delta * (x / delta - ⌊x / delta⌋) := this
        _ = x - delta * ⌊x / delta⌋ := by field_simp
    have hlt1 : st1.accumulator < delta := by
      rw [ha1]
      have hfr1 : Int.fract (x / delta) < 1 := Int.fract_lt_one _
      have hfr : Int.fract (x / delta) = x / delta - ⌊x / delta⌋ := rfl
      have h2 : delta * Int.fract (x / delta) < delta * 1 := by
        exact mul_lt_mul_of_pos_left hfr1 hd
      rw [hfr] at h2
      calc x - delta * ⌊x / delta⌋
          = delta * (x / delta - ⌊x / delta⌋) := by field_simp
        _ < delta * 1 := h2
        _ = delta := mul_one delta
    have hnn' : ∀ v ∈ us, 0 ≤ v.2 := fun v hv => hnn v (List.mem_cons_of_mem _ hv)
    have ihres := ih st1 (by rw [r1]) (by rw [f1, hfd]) hacc1 hlt1 hnn'
    have hsum : 0 ≤ (us.map Prod.snd).sum := by
      apply List.sum_nonneg
      intro q hq
      obtain ⟨v, hv, rfl⟩ := List.mem_map.mp hq
      exact hnn' v hv
    have hshift : ⌊(st1.accumulator + (us.map Prod.snd).sum) / delta⌋
        = ⌊(x + (us.map Prod.snd).sum) / delta⌋ - ⌊x / delta⌋ := by
      have harg : (st1.accumulator + (us.map Prod.snd).sum) / delta
          = (x + (us.map Prod.snd).sum) / delta - (⌊x / delta⌋ : ℚ) := by
        rw [ha1]
        field_simp
        ring
      rw [harg]
      exact_mod_cast Int.floor_sub_int ((x + (us.map Prod.snd).sum) / delta) _
    have hmono : ⌊x / delta⌋ ≤ ⌊(x + (us.map Prod.snd).sum) / delta⌋ := by
      apply Int.floor_le_floor
      gcongr
      linarith
    rw [hfd] at l1
    simp only [List.foldl_cons, List.map_cons, List.sum_cons]
    rw [← hst1, ihres, l1, hshift]
    have : st.accumulator + (d + (us.map Prod.snd).sum)
        = x + (us.map Prod.snd).sum := by rw [hxdef]; ring
    rw [this]
    omega

/-- C6: an armed recorder fed any sequence of nonnegative `deltaTime`
values records exactly `⌊T/Δ⌋` samples, where `T` is the total elapsed
time and `Δ` the fixed timestep — independent of how `T` is split across
the `update` calls (the count depends only on the sum). -/
theorem update_fixed_timestep_determinism (delta : ℚ) (hd : 0 < delta)
    (st0 : RecorderState) (hfd : st0.fixedDelta = delta)
    (us : List (Pose × ℚ)) (hnn : ∀ u ∈ us, 0 ≤ u.2) :
    (us.foldl (fun s u => Recorder.update u.1 u.2 s)
        (Recorder.startRecording st0)).samples.length
      = (⌊(us.map Prod.snd).sum / delta⌋).toNat := by
  have h := foldl_update_spec delta hd us (Recorder.startRecording st0)
    (by simp [Recorder.startRecording]) (by simp [Recorder.startRecording, hfd])
    (by simp [Recorder.startRecording]) (by simp [Recorder.startRecording]; exact hd)
    hnn
  simpa [Recorder.startRecording] using h

section ConcreteEvaluationC

attribute [local semireducible] Rat.add Rat.sub Rat.mul Rat.inv

/-- Witness for C6: three updates of 1/45 s each on a 30 fps recorder
(total 1/15 s = 2 timesteps) record ⌊(1/15)/(1/30)⌋ = 2 samples. -/
theorem update_fixed_timestep_determinism_witness :
    ([(poseA, (1/45 : ℚ)), (poseB, 1/45), (poseC, 1/45)].foldl
        (fun s u => Recorder.update u.1 u.2 s)
        (Recorder.startRecording (Recorder.new 30))).samples.length
      = (⌊([(poseA, (1/45 : ℚ)), (poseB, 1/45), (poseC, 1/45)].map
            Prod.snd).sum / (1/30 : ℚ)⌋).toNat :=
  update_fixed_timestep_determinism (1/30) (by norm_num) (Recorder.new 30)
    rfl _ (by decide)

end ConcreteEvaluationC

/-! ## Association-list lemmas for the JS `Map` embedding -/

/-- Lookup in the empty map. -/
theorem mapGet_nil (f : ℤ) : mapGet [] f = none := rfl

/-- Lookup distributes over cons. -/
theorem mapGet_cons (p : ℤ × ℚ) (t : FrameMap) (f : ℤ) :
    mapGet (p :: t) f = if p.1 = f then some p.2 else mapGet t f := by
  by_cases h : p.1 = f
  · simp [mapGet, List.find?_cons_of_pos, h]
  · simp [mapGet, List.find?_cons_of_neg, h]

/-- A map has no entry for `k` iff no stored pair carries key `k`. -/
theorem mapHas_false_iff (m : FrameMap) (k : ℤ) :
    mapHas m k = false ↔ ∀ p ∈ m, p.1 ≠ k := by
  simp [mapHas]

/-- A present key looks up to a value. -/
theorem mapHas_true_isSome (m : FrameMap) (k : ℤ) (h : mapHas m k = true) :
    (mapGet m k).isSome = true := by
  induction m with
  | nil => simp [mapHas] at h
  | cons p t ih =>
    rw [mapGet_cons]
    by_cases hp : p.1 = k
    · simp [hp]
    · simp only [mapHas, List.any_cons, Bool.or_eq_true, decide_eq_true_eq]
        at h
      rcases h with h | h
      · exact absurd h hp
      · simpa [hp] using ih h

/-- `Map.set` with a fresh key appends. -/
theorem mapSet_append (m : FrameMap) (k : ℤ) (v : ℚ)
    (h : mapHas m k = false) : mapSet m k v = m ++ [(k, v)] := by
  simp [mapSet, h]

/-- Overwriting key `k` in place leaves other keys' lookups alone. -/
theorem mapGet_replace_ne (m : FrameMap) (k f : ℤ) (v : ℚ) (h : f ≠ k) :
    mapGet (m.map (fun p => if p.1 = k then (k, v) else p)) f = mapGet m f := by
  induction m with
  | nil => simp [mapGet_nil]
  | cons p t ih =>
    rw [List.map_cons, mapGet_cons, mapGet_cons]
    by_cases hpk : p.1 = k
    · rw [if_pos hpk]
      have h1 : ((k, v) : ℤ × ℚ).1 = f ↔ False := by simp; omega
      rw [if_neg (by simpa using h1.mp), if_neg (by rw [hpk]; omega)]
      exact ih
    · rw [if_neg hpk]
      by_cases hpf : p.1 = f
      · simp [hpf]
      · rw [if_neg hpf, if_neg hpf]
        exact ih

/-- Appending a pair with a different key leaves a lookup alone. -/
theorem mapGet_append_single_ne (m : FrameMap) (k f : ℤ) (v : ℚ)
    (h : f ≠ k) : mapGet (m ++ [(k, v)]) f = mapGet m f := by
  induction m with
  | nil => simp [mapGet_cons, mapGet_nil, Ne.symm h]
  | cons p t ih =>
    rw [List.cons_append, mapGet_cons, mapGet_cons]
    by_cases hpf : p.1 = f
    · simp [hpf]
    · rw [if_neg hpf, if_neg hpf]
      exact ih

/-- `Map.set` on a different key leaves a lookup alone. -/
theorem mapGet_mapSet_ne (m : FrameMap) (k f : ℤ) (v : ℚ) (h : f ≠ k) :
    mapGet (mapSet m k v) f = mapGet m f := by
  unfold mapSet
  split
  · exact mapGet_replace_ne m k f v h
  · exact mapGet_append_single_ne m k f v h

/-- Appending entries preserves successful lookups. -/
theorem mapGet_append_some (m l : FrameMap) (f : ℤ) (w : ℚ)
    (h : mapGet m f = some w) : mapGet (m ++ l) f = some w := by
  induction m with
  | nil => simp [mapGet_nil] at h
  | cons p t ih =>
    rw [mapGet_cons] at h
    rw [List.cons_append, mapGet_cons]
    by_cases hpf : p.1 = f
    · simpa [hpf] using h
    · rw [if_neg hpf]
      rw [if_neg hpf] at h
      exact ih h

/-- Appending one pair to a map with no entry for `f`. -/
theorem mapGet_append_single (m : FrameMap) (k f : ℤ) (v : ℚ)
    (h : mapGet m f = none) :
    mapGet (m ++ [(k, v)]) f = if k = f then some v else none := by
  induction m with
  | nil => simp [mapGet_cons, mapGet_nil]
  | cons p t ih =>
    rw [mapGet_cons] at h
    rw [List.cons_append, mapGet_cons]
    by_cases hpf : p.1 = f
    · simp [hpf] at h
    · rw [if_neg hpf]
      rw [if_neg hpf] at h
      exact ih h

/-- An absent key looks up to nothing. -/
theorem mapGet_none_of_not_has (m : FrameMap) (k : ℤ)
    (h : mapHas m k = false) : mapGet m k = none := by
  induction m with
  | nil => rfl
  | cons p t ih =>
    simp only [mapHas, List.any_cons, Bool.or_eq_false_iff] at h
    rw [mapGet_cons, if_neg (by simpa using h.1)]
    exact ih (by simp [mapHas, h.2])

/-- `Map.set` with a key larger than every present key appends. -/
theorem keys_mapSet_fresh (m : FrameMap) (f : ℤ) (v : ℚ)
    (h : ∀ p ∈ m, p.1 < f) :
    mapSet m f v = m ++ [(f, v)] := by
  apply mapSet_append
  exact (mapHas_false_iff m f).mpr (fun p hp => by have := h p hp; omega)

/-! ## The export loop as a fold -/

/-- An iteration on a skipped (non-cadence) frame is the identity. -/
theorem expStep_skip (t : Trig) (o : ExportOptions) (ca : ChannelArrays)
    (sfc : ℤ) (st : LoopState) (f : ℤ)
    (h : isKeyframe o f = false) : expStep t o ca sfc st f = st := by
  have h' : o.cadence > 1 ∧ f % o.cadence ≠ 0 :=
    Decidable.of_not_not (of_decide_eq_false h)
  unfold expStep
  rw [if_pos h']

/-- An iteration on an emitted keyframe sets the frame's entry in every
one of the six maps and advances the `prevKeyFrame` register. -/
theorem expStep_emitted (t : Trig) (o : ExportOptions) (ca : ChannelArrays)
    (sfc : ℤ) (st : LoopState) (f : ℤ)
    (h : isKeyframe o f = true) :
    ∃ v1 v2 v3 v4 v5 v6 : ℚ,
      expStep t o ca sfc st f =
        { initialized := true, prev := f,
          tx := mapSet st.tx f v1, ty := mapSet st.ty f v2,
          tz := mapSet st.tz f v3, rx := mapSet st.rx f v4,
          ry := mapSet st.ry f v5, rz := mapSet st.rz f v6 } := by
  have h' : ¬(o.cadence > 1 ∧ f % o.cadence ≠ 0) := of_decide_eq_true h
  unfold expStep
  rw [if_neg h']
  by_cases hinit : st.initialized = false
  · by_cases hsfc : f = sfc
    · exact ⟨0, 0, 0, 0, 0, 0, by simp [hinit, hsfc]⟩
    · exact ⟨0, 0, 0, _, _, _,
        by simp [hinit, hsfc]; exact ⟨rfl, rfl, rfl⟩⟩
  · have hinit' : st.initialized = true := by
      revert hinit; cases st.initialized <;> simp
    by_cases hsfc : f = sfc
    · exact ⟨_, _, _, 0, 0, 0,
        by simp [hinit', hsfc]; exact ⟨rfl, rfl, rfl⟩⟩
    · exact ⟨_, _, _, _, _, _,
        by simp [hinit', hsfc]; exact ⟨rfl, rfl, rfl, rfl, rfl, rfl⟩⟩

/-- The first iteration (on the start-for-cadence frame) puts the zero
entry into all six maps. -/
theorem expStep_first (t : Trig) (o : ExportOptions) (ca : ChannelArrays)
    (sfc : ℤ) (h : isKeyframe o sfc = true) :
    expStep t o ca sfc (initLoopState sfc) sfc = firstStepState sfc := by
  have h' : ¬(o.cadence > 1 ∧ sfc % o.cadence ≠ 0) := of_decide_eq_true h
  unfold expStep initLoopState firstStepState
  rw [if_neg h']
  simp [mapSet, mapHas]

/-- Fold characterisation of the key set of one channel map: folding the
export loop over strictly ascending frames appends exactly the emitted
(cadence-passing) frames to the map's key list. -/
theorem foldl_expStep_keys_generic (t : Trig) (o : ExportOptions)
    (ca : ChannelArrays) (sfc : ℤ) (σ : LoopState → FrameMap)
    (hσ : ∀ (st : LoopState) (f : ℤ), isKeyframe o f = true →
      ∃ v, σ (expStep t o ca sfc st f) = mapSet (σ st) f v) :
    ∀ (fs : List ℤ) (st : LoopState),
      List.Pairwise (fun a b => a < b) fs →
      (∀ f ∈ fs, ∀ p ∈ σ st, p.1 < f) →
      (σ (fs.foldl (expStep t o ca sfc) st)).map Prod.fst
        = (σ st).map Prod.fst ++ fs.filter (fun f => isKeyframe o f) := by
  intro fs
  induction fs with
  | nil => intro st _ _; simp
  | cons f fs ih =>
    intro st hpw hbound
    rw [List.foldl_cons]
    cases hkey : isKeyframe o f with
    | false =>
      rw [expStep_skip t o ca sfc st f hkey]
      rw [ih st hpw.of_cons
        (fun g hg => hbound g (List.mem_cons_of_mem _ hg))]
      rw [List.filter_cons_of_neg (by simp [hkey])]
    | true =>
      obtain ⟨v, hv⟩ := hσ st f hkey
      have hfresh : mapSet (σ st) f v = σ st ++ [(f, v)] :=
        keys_mapSet_fresh _ f v (hbound f (List.mem_cons_self f fs))
      have hbound' : ∀ g ∈ fs, ∀ p ∈ σ (expStep t o ca sfc st f), p.1 < g := by
        intro g hg p hp
        rw [hv, hfresh] at hp
        rcases List.mem_append.mp hp with hp | hp
        · exact hbound g (List.mem_cons_of_mem _ hg) p hp
        · have : p = (f, v) := by simpa using hp
          have hfg : f < g := List.rel_of_pairwise_cons hpw hg
          rw [this]; exact hfg
      rw [ih _ hpw.of_cons hbound', hv, hfresh]
      rw [List.filter_cons_of_pos (by simp [hkey])]
      simp

/-- Folding the export loop over frames strictly above `f0` does not
change the map entry at `f0`. -/
theorem foldl_expStep_get_generic (t : Trig) (o : ExportOptions)
    (ca : ChannelArrays) (sfc : ℤ) (σ : LoopState → FrameMap)
    (hσ : ∀ (st : LoopState) (f : ℤ), isKeyframe o f = true →
      ∃ v, σ (expStep t o ca sfc st f) = mapSet (σ st) f v) :
    ∀ (fs : List ℤ) (st : LoopState) (f0 : ℤ),
      (∀ f ∈ fs, f0 < f) →
      mapGet (σ (fs.foldl (expStep t o ca sfc) st)) f0 = mapGet (σ st) f0 := by
  intro fs
  induction fs with
  | nil => intro st f0 _; simp
  | cons f fs ih =>
    intro st f0 hlt
    rw [List.foldl_cons]
    cases hkey : isKeyframe o f with
    | false =>
      rw [expStep_skip t o ca sfc st f hkey]
      exact ih st f0 (fun g hg => hlt g (List.mem_cons_of_mem _ hg))
    | true =>
      obtain ⟨v, hv⟩ := hσ st f hkey
      rw [ih _ f0 (fun g hg => hlt g (List.mem_cons_of_mem _ hg)), hv]
      exact mapGet_mapSet_ne _ f f0 v
        (by have := hlt f (List.mem_cons_self f fs); omega)

/-! ## The loop's frame sequence -/

/-- The loop frames are strictly increasing. -/
theorem windowFrames_sorted (start stop step : ℤ) (hstep : 1 ≤ step) :
    List.Pairwise (fun a b => a < b) (windowFrames start stop step) := by
  unfold windowFrames
  split
  · exact List.Pairwise.nil
  · refine List.Pairwise.map _ ?_ (List.pairwise_lt_range _)
    intro a b hab
    have hab' : Int.ofNat a < Int.ofNat b := Int.ofNat_lt.mpr hab
    nlinarith

/-- The truncated loop frames are strictly increasing. -/
theorem loopFrames_sorted (start stop step tot : ℤ) (hstep : 1 ≤ step) :
    List.Pairwise (fun a b => a < b) (loopFrames start stop step tot) :=
  (windowFrames_sorted start stop step hstep).sublist
    (List.takeWhile_sublist _)

/-- Every window frame is at least the window start. -/
theorem windowFrames_mem_lower (start stop step : ℤ) (f : ℤ)
    (hf : f ∈ windowFrames start stop step) : start ≤ f := by
  unfold windowFrames at hf
  split at hf
  · simp at hf
  · obtain ⟨k, _, rfl⟩ := List.mem_map.mp hf
    rename_i hcond
    have hstep : 1 ≤ step := by omega
    have hk : (0 : ℤ) ≤ Int.ofNat k := Int.natCast_nonneg k
    nlinarith

/-- Every loop frame is at least the loop start. -/
theorem loopFrames_mem_lower (start stop step tot : ℤ) (f : ℤ)
    (hf : f ∈ loopFrames start stop step tot) : start ≤ f :=
  windowFrames_mem_lower start stop step f
    ((List.takeWhile_sublist _).subset hf)

/-- A nonempty export window starts at its start frame. -/
theorem loopFrames_cons (start stop step tot : ℤ) (hstep : 1 ≤ step)
    (hse : start ≤ stop) (hlt : start < tot) :
    ∃ rest, loopFrames start stop step tot = start :: rest := by
  have hcond : ¬(step ≤ 0 ∨ stop < start) := by omega
  unfold loopFrames windowFrames
  rw [if_neg hcond, List.range_succ_eq_map, List.map_cons]
  have hhead : start + step * Int.ofNat 0 = start := by simp
  rw [hhead, List.takeWhile_cons_of_pos (by simpa using hlt)]
  exact ⟨_, rfl⟩

/-! ## The cadence start frame -/

/-- Batteries' `Rat.ceil` agrees with the mathematical ceiling. -/
theorem rat_ceil_eq (q : ℚ) : Rat.ceil q = ⌈q⌉ := by
  unfold Rat.ceil
  by_cases h : q.den = 1
  · rw [if_pos h]
    conv_rhs => rw [← Rat.coe_int_num_of_den_eq_one h]
    rw [Int.ceil_intCast]
  · rw [if_neg h]
    have hfl : ⌊q⌋ = q.num / q.den := Rat.floor_def
    have hne : (⌊q⌋ : ℚ) ≠ q := by
      intro heq
      have hd : q.den = 1 := by
        rw [← heq]; exact Rat.den_intCast _
      exact h hd
    have hlt : (⌊q⌋ : ℚ) < q := lt_of_le_of_ne (Int.floor_le q) hne
    have h1 : ⌈q⌉ ≤ ⌊q⌋ + 1 := by
      apply Int.ceil_le.mpr
      push_cast
      exact (Int.lt_floor_add_one q).le
    have h2 : ⌊q⌋ + 1 ≤ ⌈q⌉ := by
      have hcast : (⌊q⌋ : ℚ) < (⌈q⌉ : ℚ) := lt_of_lt_of_le hlt (Int.le_ceil q)
      have : ⌊q⌋ < ⌈q⌉ := by exact_mod_cast hcast
      omega
    have hceil : ⌈q⌉ = ⌊q⌋ + 1 := le_antisymm h1 h2
    rw [hceil, hfl]

/-- With cadence above 1, `startFrameForCadence` is the least multiple of
the cadence that is at least `frameStart`. -/
theorem startFrameForCadence_least (o : ExportOptions) (h2 : 1 < o.cadence) :
    o.frameStart ≤ startFrameForCadence o
    ∧ startFrameForCadence o % o.cadence = 0
    ∧ ∀ m : ℤ, m % o.cadence = 0 → o.frameStart ≤ m →
        startFrameForCadence o ≤ m := by
  have hc : (0 : ℤ) < o.cadence := by omega
  have hcq : (0 : ℚ) < (o.cadence : ℚ) := by exact_mod_cast hc
  unfold startFrameForCadence
  rw [if_pos h2, rat_ceil_eq]
  refine ⟨?_, Int.mul_emod_left _ _, ?_⟩
  · have h1 : ((o.frameStart : ℚ) / (o.cadence : ℚ))
        ≤ (⌈(o.frameStart : ℚ) / (o.cadence : ℚ)⌉ : ℚ) := Int.le_ceil _
    have h2' : (o.frameStart : ℚ)
        ≤ (⌈(o.frameStart : ℚ) / (o.cadence : ℚ)⌉ : ℚ) * (o.cadence : ℚ) := by
      calc (o.frameStart : ℚ)
          = ((o.frameStart : ℚ) / (o.cadence : ℚ)) * (o.cadence : ℚ) := by
            field_simp
        _ ≤ _ := mul_le_mul_of_nonneg_right h1 (le_of_lt hcq)
    exact_mod_cast h2'
  · intro m hm hfm
    obtain ⟨k, rfl⟩ := Int.dvd_of_emod_eq_zero hm
    have hdivle : (o.frameStart : ℚ) / (o.cadence : ℚ) ≤ (k : ℚ) := by
      rw [div_le_iff₀ hcq]
      have : (o.frameStart : ℚ) ≤ (o.cadence : ℚ) * (k : ℚ) := by
        exact_mod_cast hfm
      linarith [this]
    have hceil : ⌈(o.frameStart : ℚ) / (o.cadence : ℚ)⌉ ≤ k :=
      Int.ceil_le.mpr hdivle
    have hmul := Int.mul_le_mul_of_nonneg_right hceil (le_of_lt hc)
    linarith [hmul, mul_comm o.cadence k]

/-- The cadence start frame always passes the cadence filter. -/
theorem isKeyframe_sfc (o : ExportOptions) :
    isKeyframe o (startFrameForCadence o) = true := by
  by_cases h2 : 1 < o.cadence
  · have hmod := (startFrameForCadence_least o h2).2.1
    simp [isKeyframe, hmod]
  · simp only [isKeyframe, decide_eq_true_eq]
    intro hcontra
    exact absurd hcontra.1 (by omega)

/-! ## Backfill (`addEmptyFrames`) -/

/-- One backfill step on a different frame leaves a lookup alone. -/
theorem backfill_step_ne (m : FrameMap) (g f : ℤ) (h : f ≠ g) :
    mapGet (if mapHas m g then m else mapSet m g 0) f = mapGet m f := by
  split
  · rfl
  · exact mapGet_mapSet_ne m g f 0 h

/-- Backfill never alters an existing entry. -/
theorem backfill_fold_preserves_some :
    ∀ (fs : List ℤ) (m : FrameMap) (f : ℤ) (w : ℚ),
      mapGet m f = some w →
      mapGet (fs.foldl
        (fun m frame => if mapHas m frame then m else mapSet m frame 0) m) f
        = some w := by
  intro fs
  induction fs with
  | nil => intro m f w h; simpa using h
  | cons g fs ih =>
    intro m f w h
    rw [List.foldl_cons]
    apply ih
    by_cases hfg : f = g
    · subst hfg
      split
      · exact h
      · rename_i hhas
        rw [mapSet_append m f 0 (by simpa using hhas)]
        exact mapGet_append_some m _ f w h
    · rw [backfill_step_ne m g f hfg]
      exact h

/-- Every entry after backfill is an original entry or a zero entry at a
window frame. -/
theorem backfill_fold_mem :
    ∀ (fs : List ℤ) (m : FrameMap) (p : ℤ × ℚ),
      p ∈ fs.foldl
        (fun m frame => if mapHas m frame then m else mapSet m frame 0) m →
      p ∈ m ∨ (p.1 ∈ fs ∧ p.2 = 0) := by
  intro fs
  induction fs with
  | nil => intro m p h; exact Or.inl (by simpa using h)
  | cons g fs ih =>
    intro m p h
    rw [List.foldl_cons] at h
    rcases ih _ p h with hmem | ⟨hin, hz⟩
    · by_cases hhas : mapHas m g = true
      · rw [if_pos hhas] at hmem
        exact Or.inl hmem
      · rw [if_neg hhas,
          mapSet_append m g 0 (by simpa using hhas)] at hmem
        rcases List.mem_append.mp hmem with hmem | hmem
        · exact Or.inl hmem
        · have : p = (g, 0) := by simpa using hmem
          exact Or.inr ⟨by simp [this], by simp [this]⟩
    · exact Or.inr ⟨List.mem_cons_of_mem _ hin, hz⟩

/-- After backfill every window frame has an entry, and frames that had
none hold an explicit zero. -/
theorem backfill_fold_covers :
    ∀ (fs : List ℤ) (m : FrameMap) (f : ℤ), f ∈ fs →
      (mapGet (fs.foldl
        (fun m frame => if mapHas m frame then m else mapSet m frame 0) m)
          f).isSome = true
      ∧ (mapGet m f = none →
          mapGet (fs.foldl
            (fun m frame => if mapHas m frame then m else mapSet m frame 0) m)
            f = some 0) := by
  intro fs
  induction fs with
  | nil => intro m f h; simp at h
  | cons g fs ih =>
    intro m f hf
    rw [List.foldl_cons]
    by_cases hfg : f = g
    · subst hfg
      have hsome : ∃ w,
          mapGet (if mapHas m f then m else mapSet m f 0) f = some w := by
        by_cases hhas : mapHas m f = true
        · rw [if_pos hhas]
          obtain ⟨w, hw⟩ :=
            Option.isSome_iff_exists.mp (mapHas_true_isSome m f hhas)
          exact ⟨w, hw⟩
        · rw [if_neg hhas, mapSet_append m f 0 (by simpa using hhas)]
          refine ⟨0, ?_⟩
          rw [mapGet_append_single m f f 0
            (mapGet_none_of_not_has m f (by simpa using hhas))]
          simp
      obtain ⟨w, hw⟩ := hsome
      constructor
      · rw [backfill_fold_preserves_some fs _ f w hw]
        rfl
      · intro hnone
        have hhas : mapHas m f = false := by
          by_contra hcontra
          have := mapHas_true_isSome m f
            (by revert hcontra; cases mapHas m f <;> simp)
          rw [hnone] at this
          simp at this
        have hw0 : mapGet (if mapHas m f then m else mapSet m f 0) f
            = some 0 := by
          rw [if_neg (by simp [hhas]), mapSet_append m f 0 hhas]
          rw [mapGet_append_single m f f 0 (mapGet_none_of_not_has m f hhas)]
          simp
        exact backfill_fold_preserves_some fs _ f 0 hw0
    · have hf' : f ∈ fs := by
        rcases List.mem_cons.mp hf with h | h
        · exact absurd h hfg
        · exact h
      obtain ⟨ih1, ih2⟩ := ih (if mapHas m g then m else mapSet m g 0) f hf'
      refine ⟨ih1, ?_⟩
      intro hnone
      apply ih2
      rw [backfill_step_ne m g f hfg]
      exact hnone

/-! ## Assembling `generateMaps` facts -/

/-- `addEmptyFrames` written as the fold the backfill lemmas speak
about. -/
theorem addEmptyFrames_eq (m : FrameMap) (a b s : ℤ) :
    addEmptyFrames m a b s
      = (windowFrames a b s).foldl
          (fun m frame => if mapHas m frame then m else mapSet m frame 0) m :=
  rfl

/-- The loop part of `generateMaps`, spelled as a fold. -/
theorem generateMapsLoop_eq (t : Trig) (ca : ChannelArrays)
    (o : ExportOptions) :
    generateMapsLoop t ca o
      = (loopFrames (startFrameForCadence o) (actualFrameEnd o ca)
          o.frameStep (ca.translation_x.length : ℤ)).foldl
          (expStep t o ca (startFrameForCadence o))
          (initLoopState (startFrameForCadence o)) :=
  rfl

/-- The six channel maps of `generateMaps` in terms of the loop result
and the gated backfill. -/
theorem generateMaps_fields (t : Trig) (ca : ChannelArrays)
    (o : ExportOptions) :
    ((generateMaps t ca o).tx
        = if o.includeEmptyFrames ∧ o.cadence ≤ 1
          then addEmptyFrames (generateMapsLoop t ca o).tx o.frameStart
            (actualFrameEnd o ca) o.frameStep
          else (generateMapsLoop t ca o).tx)
    ∧ ((generateMaps t ca o).ty
        = if o.includeEmptyFrames ∧ o.cadence ≤ 1
          then addEmptyFrames (generateMapsLoop t ca o).ty o.frameStart
            (actualFrameEnd o ca) o.frameStep
          else (generateMapsLoop t ca o).ty)
    ∧ ((generateMaps t ca o).tz
        = if o.includeEmptyFrames ∧ o.cadence ≤ 1
          then addEmptyFrames (generateMapsLoop t ca o).tz o.frameStart
            (actualFrameEnd o ca) o.frameStep
          else (generateMapsLoop t ca o).tz)
    ∧ ((generateMaps t ca o).rx
        = if o.includeEmptyFrames ∧ o.cadence ≤ 1
          then addEmptyFrames (generateMapsLoop t ca o).rx o.frameStart
            (actualFrameEnd o ca) o.frameStep
          else (generateMapsLoop t ca o).rx)
    ∧ ((generateMaps t ca o).ry
        = if o.includeEmptyFrames ∧ o.cadence ≤ 1
          then addEmptyFrames (generateMapsLoop t ca o).ry o.frameStart
            (actualFrameEnd o ca) o.frameStep
          else (generateMapsLoop t ca o).ry)
    ∧ ((generateMaps t ca o).rz
        = if o.includeEmptyFrames ∧ o.cadence ≤ 1
          then addEmptyFrames (generateMapsLoop t ca o).rz o.frameStart
            (actualFrameEnd o ca) o.frameStep
          else (generateMapsLoop t ca o).rz) := by
  unfold generateMaps
  split <;> exact ⟨rfl, rfl, rfl, rfl, rfl, rfl⟩

/-- The six map selectors commute with an emitted loop iteration. -/
theorem expStep_sel (t : Trig) (o : ExportOptions) (ca : ChannelArrays)
    (sfc : ℤ) :
    (∀ (st : LoopState) (f : ℤ), isKeyframe o f = true →
      ∃ v, (expStep t o ca sfc st f).tx = mapSet st.tx f v)
    ∧ (∀ (st : LoopState) (f : ℤ), isKeyframe o f = true →
      ∃ v, (expStep t o ca sfc st f).ty = mapSet st.ty f v)
    ∧ (∀ (st : LoopState) (f : ℤ), isKeyframe o f = true →
      ∃ v, (expStep t o ca sfc st f).tz = mapSet st.tz f v)
    ∧ (∀ (st : LoopState) (f : ℤ), isKeyframe o f = true →
      ∃ v, (expStep t o ca sfc st f).rx = mapSet st.rx f v)
    ∧ (∀ (st : LoopState) (f : ℤ), isKeyframe o f = true →
      ∃ v, (expStep t o ca sfc st f).ry = mapSet st.ry f v)
    ∧ (∀ (st : LoopState) (f : ℤ), isKeyframe o f = true →
      ∃ v, (expStep t o ca sfc st f).rz = mapSet st.rz f v) := by
  refine ⟨?_, ?_, ?_, ?_, ?_, ?_⟩ <;>
    · intro st f h
      obtain ⟨v1, v2, v3, v4, v5, v6, hstep⟩ :=
        expStep_emitted t o ca sfc st f h
      rw [hstep]
      exact ⟨_, rfl⟩

/-- Core facts about one channel map of the loop result on a nonempty
window: the start frame holds the zero entry and no smaller key exists. -/
theorem generateMapsLoop_sel (t : Trig) (ca : ChannelArrays)
    (o : ExportOptions) (σ : LoopState → FrameMap)
    (hσ : ∀ (st : LoopState) (f : ℤ), isKeyframe o f = true →
      ∃ v, σ (expStep t o ca (startFrameForCadence o) st f)
        = mapSet (σ st) f v)
    (hσ0 : σ (firstStepState (startFrameForCadence o))
      = [(startFrameForCadence o, 0)])
    (hstep : 1 ≤ o.frameStep)
    (hne : startFrameForCadence o ≤ actualFrameEnd o ca) :
    mapGet (σ (generateMapsLoop t ca o)) (startFrameForCadence o) = some 0
    ∧ (∀ p ∈ σ (generateMapsLoop t ca o), startFrameForCadence o ≤ p.1) := by
  set sfc := startFrameForCadence o with hsfc
  set afe := actualFrameEnd o ca with hafe
  have hlt : sfc < (ca.translation_x.length : ℤ) := by
    rw [hafe] at hne
    unfold actualFrameEnd at hne
    omega
  obtain ⟨rest, hcons⟩ :=
    loopFrames_cons sfc afe o.frameStep (ca.translation_x.length : ℤ)
      hstep hne hlt
  have hsorted :=
    loopFrames_sorted sfc afe o.frameStep (ca.translation_x.length : ℤ) hstep
  rw [hcons] at hsorted
  have hrest_gt : ∀ f ∈ rest, sfc < f :=
    fun f hf => List.rel_of_pairwise_cons hsorted hf
  have hfold : generateMapsLoop t ca o
      = rest.foldl (expStep t o ca sfc) (firstStepState sfc) := by
    rw [generateMapsLoop_eq, ← hsfc, ← hafe, hcons, List.foldl_cons,
      expStep_first t o ca sfc (isKeyframe_sfc o)]
  constructor
  · rw [hfold,
      foldl_expStep_get_generic t o ca sfc σ hσ rest _ sfc hrest_gt, hσ0,
      mapGet_cons]
    simp
  · intro p hp
    rw [hfold] at hp
    have hkeys := foldl_expStep_keys_generic t o ca sfc σ hσ rest _
      hsorted.of_cons
      (by intro f hf q hq
          rw [hσ0] at hq
          have hq' : q = (sfc, 0) := by simpa using hq
          rw [hq']
          exact hrest_gt f hf)
    have hp1 : p.1 ∈ (σ (rest.foldl (expStep t o ca sfc)
        (firstStepState sfc))).map Prod.fst :=
      List.mem_map_of_mem Prod.fst hp
    rw [hkeys, hσ0] at hp1
    simp only [List.map_cons, List.map_nil, List.cons_append,
      List.nil_append, List.mem_cons] at hp1
    rcases hp1 with h1 | h1
    · omega
    · have h2 := List.mem_of_mem_filter h1
      have h3 := hrest_gt _ h2
      omega

/-- Transfer of the first-keyframe facts through the gated backfill. -/
theorem backfilled_map_facts (o : ExportOptions) (ca : ChannelArrays)
    (loopMap finalMap : FrameMap)
    (hfield : finalMap
      = if o.includeEmptyFrames ∧ o.cadence ≤ 1
        then addEmptyFrames loopMap o.frameStart (actualFrameEnd o ca)
          o.frameStep
        else loopMap)
    (hget : mapGet loopMap (startFrameForCadence o) = some 0)
    (hmem : ∀ p ∈ loopMap, startFrameForCadence o ≤ p.1) :
    mapGet finalMap (startFrameForCadence o) = some 0
    ∧ ∀ p ∈ finalMap, startFrameForCadence o ≤ p.1 := by
  rw [hfield]
  split
  · rename_i hcond
    have hsfc_eq : startFrameForCadence o = o.frameStart := by
      unfold startFrameForCadence
      rw [if_neg (by omega)]
    rw [addEmptyFrames_eq]
    constructor
    · exact backfill_fold_preserves_some _ _ _ 0 hget
    · intro p hp
      rcases backfill_fold_mem _ _ p hp with h | ⟨hin, _⟩
      · exact hmem p h
      · rw [hsfc_eq]
        exact windowFrames_mem_lower _ _ _ _ hin
  · exact ⟨hget, hmem⟩

/-! ## C3 — first-keyframe-zero invariant -/

/-- C3: for every channel-array input and option set with a positive
step whose export window is nonempty, the first emitted keyframe (the
start-for-cadence frame, which is the least key of every channel map)
carries the value 0 in all three translation and all three rotation
channels of `generateSchedules`' maps. -/
theorem first_keyframe_zero_invariant (t : Trig) (ca : ChannelArrays)
    (o : ExportOptions) (hstep : 1 ≤ o.frameStep)
    (hne : startFrameForCadence o ≤ actualFrameEnd o ca) :
    (mapGet (generateMaps t ca o).tx (startFrameForCadence o) = some 0
      ∧ ∀ p ∈ (generateMaps t ca o).tx, startFrameForCadence o ≤ p.1)
    ∧ (mapGet (generateMaps t ca o).ty (startFrameForCadence o) = some 0
      ∧ ∀ p ∈ (generateMaps t ca o).ty, startFrameForCadence o ≤ p.1)
    ∧ (mapGet (generateMaps t ca o).tz (startFrameForCadence o) = some 0
      ∧ ∀ p ∈ (generateMaps t ca o).tz, startFrameForCadence o ≤ p.1)
    ∧ (mapGet (generateMaps t ca o).rx (startFrameForCadence o) = some 0
      ∧ ∀ p ∈ (generateMaps t ca o).rx, startFrameForCadence o ≤ p.1)
    ∧ (mapGet (generateMaps t ca o).ry (startFrameForCadence o) = some 0
      ∧ ∀ p ∈ (generateMaps t ca o).ry, startFrameForCadence o ≤ p.1)
    ∧ (mapGet (generateMaps t ca o).rz (startFrameForCadence o) = some 0
      ∧ ∀ p ∈ (generateMaps t ca o).rz, startFrameForCadence o ≤ p.1) := by
  obtain ⟨s1, s2, s3, s4, s5, s6⟩ :=
    expStep_sel t o ca (startFrameForCadence o)
  obtain ⟨f1, f2, f3, f4, f5, f6⟩ := generateMaps_fields t ca o
  refine ⟨?_, ?_, ?_, ?_, ?_, ?_⟩
  · obtain ⟨hg, hm⟩ := generateMapsLoop_sel t ca o
      (fun st => st.tx) s1 rfl hstep hne
    exact backfilled_map_facts o ca _ _ f1 hg hm
  · obtain ⟨hg, hm⟩ := generateMapsLoop_sel t ca o
      (fun st => st.ty) s2 rfl hstep hne
    exact backfilled_map_facts o ca _ _ f2 hg hm
  · obtain ⟨hg, hm⟩ := generateMapsLoop_sel t ca o
      (fun st => st.tz) s3 rfl hstep hne
    exact backfilled_map_facts o ca _ _ f3 hg hm
  · obtain ⟨hg, hm⟩ := generateMapsLoop_sel t ca o
      (fun st => st.rx) s4 rfl hstep hne
    exact backfilled_map_facts o ca _ _ f4 hg hm
  · obtain ⟨hg, hm⟩ := generateMapsLoop_sel t ca o
      (fun st => st.ry) s5 rfl hstep hne
    exact backfilled_map_facts o ca _ _ f5 hg hm
  · obtain ⟨hg, hm⟩ := generateMapsLoop_sel t ca o
      (fun st => st.rz) s6 rfl hstep hne
    exact backfilled_map_facts o ca _ _ f6 hg hm

/-- Witness for C3 on the concrete 10-frame recording with cadence-1
options. -/
theorem first_keyframe_zero_invariant_witness :
    mapGet (generateMaps zeroTrig cadenceArrays scenarioOptions).tx
        (startFrameForCadence scenarioOptions) = some 0
    ∧ ∀ p ∈ (generateMaps zeroTrig cadenceArrays scenarioOptions).tx,
        startFrameForCadence scenarioOptions ≤ p.1 :=
  (first_keyframe_zero_invariant zeroTrig cadenceArrays scenarioOptions
    (by decide) (by decide)).1

/-! ## C4 — cadence filtering -/

/-- With cadence above 1 the backfill is gated off. -/
theorem generateMaps_no_backfill (t : Trig) (ca : ChannelArrays)
    (o : ExportOptions) (h2 : 1 < o.cadence) :
    generateMaps t ca o = generateMapsLoop t ca o := by
  unfold generateMaps
  rw [if_neg (by intro hcond; omega)]

/-- The key list of each loop map is exactly the emitted frame list. -/
theorem generateMapsLoop_keys (t : Trig) (ca : ChannelArrays)
    (o : ExportOptions) (σ : LoopState → FrameMap)
    (hσ : ∀ (st : LoopState) (f : ℤ), isKeyframe o f = true →
      ∃ v, σ (expStep t o ca (startFrameForCadence o) st f)
        = mapSet (σ st) f v)
    (hσinit : σ (initLoopState (startFrameForCadence o)) = [])
    (hstep : 1 ≤ o.frameStep) :
    (σ (generateMapsLoop t ca o)).map Prod.fst
      = (loopFrames (startFrameForCadence o) (actualFrameEnd o ca)
          o.frameStep (ca.translation_x.length : ℤ)).filter
          (fun f => isKeyframe o f) := by
  rw [generateMapsLoop_eq]
  have h := foldl_expStep_keys_generic t o ca (startFrameForCadence o) σ hσ
    (loopFrames (startFrameForCadence o) (actualFrameEnd o ca)
      o.frameStep (ca.translation_x.length : ℤ))
    (initLoopState (startFrameForCadence o))
    (loopFrames_sorted _ _ _ _ hstep)
    (by intro f hf p hp; rw [hσinit] at hp; simp at hp)
  rw [h, hσinit]
  simp

/-- A key absent from the key list looks up to nothing. -/
theorem mapGet_none_of_not_mem_keys (m : FrameMap) (f : ℤ)
    (h : f ∉ m.map Prod.fst) : mapGet m f = none :=
  mapGet_none_of_not_has m f ((mapHas_false_iff m f).mpr
    (fun _ hp hpk => h (hpk ▸ List.mem_map_of_mem Prod.fst hp)))

/-- Keys drawn from an emitted-frame list are multiples of the
cadence. -/
theorem keys_filter_mod (o : ExportOptions) (h2 : 1 < o.cadence)
    (m : FrameMap) (fs : List ℤ)
    (hkeys : m.map Prod.fst = fs.filter (fun f => isKeyframe o f)) :
    ∀ p ∈ m, p.1 % o.cadence = 0 := by
  intro p hp
  have h1 : p.1 ∈ fs.filter (fun f => isKeyframe o f) :=
    hkeys ▸ List.mem_map_of_mem Prod.fst hp
  have h2' := List.of_mem_filter h1
  have h3 := of_decide_eq_true h2'
  by_contra hmod
  exact h3 ⟨h2, hmod⟩

section ConcreteEvaluationD

attribute [local semireducible] Rat.add Rat.sub Rat.mul Rat.inv

/-- C4: with cadence above 1, the first exported frame is the smallest
multiple of the cadence at least `frameStart`, and every key of every
channel map is a multiple of the cadence; concretely, with cadence 4 over
10 frames starting at 0 with step 1, the keyframe set of every channel is
exactly `[0, 4, 8]` and the frames 1, 2, 3, 5, 6, 7, 9 have no entry. -/
theorem cadence_filtering (t : Trig) (ca : ChannelArrays)
    (o : ExportOptions) (h2 : 1 < o.cadence) (hstep : 1 ≤ o.frameStep) :
    (o.frameStart ≤ startFrameForCadence o
      ∧ startFrameForCadence o % o.cadence = 0
      ∧ ∀ m : ℤ, m % o.cadence = 0 → o.frameStart ≤ m →
          startFrameForCadence o ≤ m)
    ∧ ((∀ p ∈ (generateMaps t ca o).tx, p.1 % o.cadence = 0)
      ∧ (∀ p ∈ (generateMaps t ca o).ty, p.1 % o.cadence = 0)
      ∧ (∀ p ∈ (generateMaps t ca o).tz, p.1 % o.cadence = 0)
      ∧ (∀ p ∈ (generateMaps t ca o).rx, p.1 % o.cadence = 0)
      ∧ (∀ p ∈ (generateMaps t ca o).ry, p.1 % o.cadence = 0)
      ∧ (∀ p ∈ (generateMaps t ca o).rz, p.1 % o.cadence = 0))
    ∧ (∀ ca10 : ChannelArrays, ca10.translation_x.length = 10 →
        ((generateMaps t ca10 cadenceOptions).tx.map Prod.fst = [0, 4, 8]
          ∧ (generateMaps t ca10 cadenceOptions).ty.map Prod.fst = [0, 4, 8]
          ∧ (generateMaps t ca10 cadenceOptions).tz.map Prod.fst = [0, 4, 8]
          ∧ (generateMaps t ca10 cadenceOptions).rx.map Prod.fst = [0, 4, 8]
          ∧ (generateMaps t ca10 cadenceOptions).ry.map Prod.fst = [0, 4, 8]
          ∧ (generateMaps t ca10 cadenceOptions).rz.map Prod.fst = [0, 4, 8])
        ∧ (∀ f ∈ ([1, 2, 3, 5, 6, 7, 9] : List ℤ),
            mapGet (generateMaps t ca10 cadenceOptions).tx f = none
            ∧ mapGet (generateMaps t ca10 cadenceOptions).ty f = none
            ∧ mapGet (generateMaps t ca10 cadenceOptions).tz f = none
            ∧ mapGet (generateMaps t ca10 cadenceOptions).rx f = none
            ∧ mapGet (generateMaps t ca10 cadenceOptions).ry f = none
            ∧ mapGet (generateMaps t ca10 cadenceOptions).rz f = none)) := by
  obtain ⟨s1, s2, s3, s4, s5, s6⟩ :=
    expStep_sel t o ca (startFrameForCadence o)
  refine ⟨startFrameForCadence_least o h2, ?_, ?_⟩
  · rw [generateMaps_no_backfill t ca o h2]
    exact ⟨keys_filter_mod o h2 _ _ (generateMapsLoop_keys t ca o _ s1 rfl hstep),
      keys_filter_mod o h2 _ _ (generateMapsLoop_keys t ca o _ s2 rfl hstep),
      keys_filter_mod o h2 _ _ (generateMapsLoop_keys t ca o _ s3 rfl hstep),
      keys_filter_mod o h2 _ _ (generateMapsLoop_keys t ca o _ s4 rfl hstep),
      keys_filter_mod o h2 _ _ (generateMapsLoop_keys t ca o _ s5 rfl hstep),
      keys_filter_mod o h2 _ _ (generateMapsLoop_keys t ca o _ s6 rfl hstep)⟩
  · intro ca10 hlen
    obtain ⟨c1, c2, c3, c4, c5, c6⟩ :=
      expStep_sel t cadenceOptions ca10 (startFrameForCadence cadenceOptions)
    have hconc : (loopFrames (startFrameForCadence cadenceOptions)
        (actualFrameEnd cadenceOptions ca10) cadenceOptions.frameStep
        (ca10.translation_x.length : ℤ)).filter
        (fun f => isKeyframe cadenceOptions f) = [0, 4, 8] := by
      have hsfc : startFrameForCadence cadenceOptions = 0 := by decide
      have hafe : actualFrameEnd cadenceOptions ca10 = 9 := by
        unfold actualFrameEnd
        rw [hlen]
        decide
      rw [hsfc, hafe, hlen]
      decide
    have hk1 := generateMapsLoop_keys t ca10 cadenceOptions _ c1 rfl (by decide)
    have hk2 := generateMapsLoop_keys t ca10 cadenceOptions _ c2 rfl (by decide)
    have hk3 := generateMapsLoop_keys t ca10 cadenceOptions _ c3 rfl (by decide)
    have hk4 := generateMapsLoop_keys t ca10 cadenceOptions _ c4 rfl (by decide)
    have hk5 := generateMapsLoop_keys t ca10 cadenceOptions _ c5 rfl (by decide)
    have hk6 := generateMapsLoop_keys t ca10 cadenceOptions _ c6 rfl (by decide)
    rw [hconc] at hk1 hk2 hk3 hk4 hk5 hk6
    rw [generateMaps_no_backfill t ca10 cadenceOptions (by decide)]
    refine ⟨⟨hk1, hk2, hk3, hk4, hk5, hk6⟩, ?_⟩
    intro f hf
    have hnot : f ∉ ([0, 4, 8] : List ℤ) := by
      fin_cases hf <;> decide
    exact ⟨mapGet_none_of_not_mem_keys _ f (hk1 ▸ hnot),
      mapGet_none_of_not_mem_keys _ f (hk2 ▸ hnot),
      mapGet_none_of_not_mem_keys _ f (hk3 ▸ hnot),
      mapGet_none_of_not_mem_keys _ f (hk4 ▸ hnot),
      mapGet_none_of_not_mem_keys _ f (hk5 ▸ hnot),
      mapGet_none_of_not_mem_keys _ f (hk6 ▸ hnot)⟩

/-- Witness for C4 on the concrete 10-frame recording. -/
theorem cadence_filtering_witness :
    (generateMaps zeroTrig cadenceArrays cadenceOptions).tx.map Prod.fst
        = [0, 4, 8]
    ∧ mapGet (generateMaps zeroTrig cadenceArrays cadenceOptions).tx 1
        = none :=
  ⟨(((cadence_filtering zeroTrig cadenceArrays cadenceOptions (by decide)
      (by decide)).2.2 cadenceArrays (by decide)).1).1,
    ((((cadence_filtering zeroTrig cadenceArrays cadenceOptions (by decide)
      (by decide)).2.2 cadenceArrays (by decide)).2) 1 (by decide)).1⟩

end ConcreteEvaluationD

/-! ## C5 — empty-frame backfill gating -/

/-- C5: with `includeEmptyFrames` set and cadence at most 1, every
stepped frame of the export window gets an entry in each of the six
channel maps, and frames the loop left without a value get an explicit 0;
with cadence above 1 the backfill does not run at all, leaving the loop
maps untouched. -/
theorem empty_frame_backfill_gating (t : Trig) (ca : ChannelArrays)
    (o : ExportOptions) :
    (o.includeEmptyFrames = true → o.cadence ≤ 1 →
      ∀ f ∈ windowFrames o.frameStart (actualFrameEnd o ca) o.frameStep,
        ((mapGet (generateMaps t ca o).tx f).isSome = true
          ∧ (mapGet (generateMapsLoop t ca o).tx f = none →
              mapGet (generateMaps t ca o).tx f = some 0))
        ∧ ((mapGet (generateMaps t ca o).ty f).isSome = true
          ∧ (mapGet (generateMapsLoop t ca o).ty f = none →
              mapGet (generateMaps t ca o).ty f = some 0))
        ∧ ((mapGet (generateMaps t ca o).tz f).isSome = true
          ∧ (mapGet (generateMapsLoop t ca o).tz f = none →
              mapGet (generateMaps t ca o).tz f = some 0))
        ∧ ((mapGet (generateMaps t ca o).rx f).isSome = true
          ∧ (mapGet (generateMapsLoop t ca o).rx f = none →
              mapGet (generateMaps t ca o).rx f = some 0))
        ∧ ((mapGet (generateMaps t ca o).ry f).isSome = true
          ∧ (mapGet (generateMapsLoop t ca o).ry f = none →
              mapGet (generateMaps t ca o).ry f = some 0))
        ∧ ((mapGet (generateMaps t ca o).rz f).isSome = true
          ∧ (mapGet (generateMapsLoop t ca o).rz f = none →
              mapGet (generateMaps t ca o).rz f = some 0)))
    ∧ (1 < o.cadence → generateMaps t ca o = generateMapsLoop t ca o) := by
  constructor
  · intro hinc hcad f hf
    obtain ⟨f1, f2, f3, f4, f5, f6⟩ := generateMaps_fields t ca o
    have hcond : o.includeEmptyFrames ∧ o.cadence ≤ 1 := ⟨hinc, hcad⟩
    rw [if_pos hcond] at f1 f2 f3 f4 f5 f6
    rw [f1, f2, f3, f4, f5, f6, addEmptyFrames_eq, addEmptyFrames_eq,
      addEmptyFrames_eq, addEmptyFrames_eq, addEmptyFrames_eq,
      addEmptyFrames_eq]
    exact ⟨backfill_fold_covers _ _ f hf, backfill_fold_covers _ _ f hf,
      backfill_fold_covers _ _ f hf, backfill_fold_covers _ _ f hf,
      backfill_fold_covers _ _ f hf, backfill_fold_covers _ _ f hf⟩
  · exact generateMaps_no_backfill t ca o

/-- Witness for C5 on the concrete 10-frame recording with cadence-1
options (frame 1 of the 0–2 window is covered). -/
theorem empty_frame_backfill_gating_witness :
    ((mapGet (generateMaps zeroTrig cadenceArrays scenarioOptions).tx
        1).isSome = true
      ∧ (mapGet (generateMapsLoop zeroTrig cadenceArrays
            scenarioOptions).tx 1 = none →
          mapGet (generateMaps zeroTrig cadenceArrays scenarioOptions).tx 1
            = some 0))
    ∧ generateMaps zeroTrig cadenceArrays cadenceOptions
        = generateMapsLoop zeroTrig cadenceArrays cadenceOptions := by
  constructor
  · exact ((empty_frame_backfill_gating zeroTrig cadenceArrays
      scenarioOptions).1 rfl (by decide) 1 (by decide)).1
  · exact (empty_frame_backfill_gating zeroTrig cadenceArrays
      cadenceOptions).2 (by decide)

/-! ## C1 — end-to-end delta export -/

/-- A list of zeros reads as zero at every index. -/
theorem getD_zero (l : List ℚ) (hl : ∀ x ∈ l, x = 0) :
    ∀ n : ℕ, l.getD n 0 = 0 := by
  induction l with
  | nil => intro n; simp
  | cons a t ih =>
    intro n
    cases n with
    | zero => simpa using hl a (List.mem_cons_self a t)
    | succ m =>
      simp only [List.getD_cons_succ]
      exact ih (fun x hx => hl x (List.mem_cons_of_mem a hx)) m

/-- A zero channel reads as zero at every frame. -/
theorem chGet_zero (l : List ℚ) (hl : ∀ x ∈ l, x = 0) (i : ℤ) :
    chGet l i = 0 := by
  unfold chGet
  split
  · rfl
  · exact getD_zero l hl i.toNat

/-- On an input whose rotation channels are all zero, the export loop
only consults the trig functions at angle 0, so two trig pairs that build
the same rotation matrix at the zero Euler triple drive the loop
identically. -/
theorem expStep_trig_congr (t t' : Trig) (o : ExportOptions)
    (ca : ChannelArrays) (sfc : ℤ)
    (hmat : makeRotationFromEulerYXZ t 0 0 0
      = makeRotationFromEulerYXZ t' 0 0 0)
    (hrx : ∀ i, chGet ca.rotation_3d_x i = 0)
    (hry : ∀ i, chGet ca.rotation_3d_y i = 0)
    (hrz : ∀ i, chGet ca.rotation_3d_z i = 0) :
    ∀ (st : LoopState) (f : ℤ),
      expStep t o ca sfc st f = expStep t' o ca sfc st f := by
  intro st f
  unfold expStep
  simp only [hrx, hry, hrz, hmat]

/-- The matching congruence for the whole schedule generation. -/
theorem generateSchedules_trig_congr (t t' : Trig) (ca : ChannelArrays)
    (o : ExportOptions)
    (hmat : makeRotationFromEulerYXZ t 0 0 0
      = makeRotationFromEulerYXZ t' 0 0 0)
    (hrx : ∀ i, chGet ca.rotation_3d_x i = 0)
    (hry : ∀ i, chGet ca.rotation_3d_y i = 0)
    (hrz : ∀ i, chGet ca.rotation_3d_z i = 0) :
    generateSchedules t ca o = generateSchedules t' ca o := by
  have hloop : generateMapsLoop t ca o = generateMapsLoop t' ca o := by
    rw [generateMapsLoop_eq, generateMapsLoop_eq]
    exact List.foldl_ext _ _ _
      (fun st f _ => expStep_trig_congr t t' o ca _ hmat hrx hry hrz st f)
  have hmaps : generateMaps t ca o = generateMaps t' ca o := by
    unfold generateMaps
    rw [hloop]
  unfold generateSchedules
  rw [hmaps]

section ConcreteEvaluationE

attribute [local semireducible] Rat.add Rat.sub Rat.mul Rat.inv

/-- C1: recording three samples at timestep 1/30 s at positions
(0,0,0), (0.1,0,0), (0.2,0,0) with zero rotation and exporting with
frames 0–2, step 1, unit axis scales, cadence 1 and master scales 1
yields the translation_x schedule string exactly
`"0:(0), 1:(0.1), 2:(0.1)"` — per-keyframe deltas, not absolute
positions (stated for every trig pair exact at angle 0). -/
theorem end_to_end_delta_export (t : Trig) (hs : t.sin 0 = 0)
    (hc : t.cos 0 = 1) :
    scenarioRecorder.channelArrays.map
        (fun ca => (generateSchedules t ca scenarioOptions).translation_x)
      = some "0:(0), 1:(0.1), 2:(0.1)" := by
  have hca : scenarioRecorder.channelArrays = some scenarioCA := by decide
  rw [hca, Option.map_some']
  have hmat : makeRotationFromEulerYXZ t 0 0 0
      = makeRotationFromEulerYXZ zeroTrig 0 0 0 := by
    simp [makeRotationFromEulerYXZ, zeroTrig, hs, hc]
  have hz : ∀ x ∈ ([0, 0, 0] : List ℚ), x = 0 := by
    intro x hx; simpa using hx
  rw [generateSchedules_trig_congr t zeroTrig scenarioCA scenarioOptions hmat
    (chGet_zero [0, 0, 0] hz) (chGet_zero [0, 0, 0] hz)
    (chGet_zero [0, 0, 0] hz)]
  decide

/-- Witness for C1 at a trig pair exact at 0. -/
theorem end_to_end_delta_export_witness :
    zeroTrig.sin 0 = 0 ∧ zeroTrig.cos 0 = 1
    ∧ scenarioRecorder.channelArrays.map
        (fun ca =>
          (generateSchedules zeroTrig ca scenarioOptions).translation_x)
      = some "0:(0), 1:(0.1), 2:(0.1)" :=
  ⟨rfl, rfl, end_to_end_delta_export zeroTrig rfl rfl⟩

end ConcreteEvaluationE

end DeforumPilot
